import Mathlib

/-!
Verification of the v2 search controller (apps/api/src/controllers/v2/search.ts).

Shallow embedding: the pure algorithmic parts (query-variant normalisation,
reciprocal rank fusion, span scoring, the iteration loop, the synchronous
scrape/billing pipeline) are translated into executable Lean definitions.
External collaborators (the text-completion model, the scrape queue, the
credit calculator, the blocklist) are passed in as explicit oracle
parameters: a call that can fail is modelled with Option/Except, mirroring
the try/catch structure of the source.
-/

namespace V2Search

attribute [local semireducible] Rat.mul Rat.inv Rat.add Rat.sub Rat.ofScientific

/-- JS falsiness of an optional string: absent, undefined and the empty
string are all falsy (the source tests them with plain truthiness). -/
def truthy : Option String → Bool
  | none => false
  | some s => s ≠ ""

/-- Character-list splitter with the same semantics as splitting a string at
every character satisfying p (consecutive separators yield empty pieces,
like the JS split on a whitespace regex).  Structurally recursive so that
concrete inputs evaluate inside the kernel. -/
def chunksAux (p : Char → Bool) : List Char → List Char → List (List Char)
  | [], acc => [acc.reverse]
  | c :: rest, acc =>
    if p c then acc.reverse :: chunksAux p rest [] else chunksAux p rest (c :: acc)

/-- Split a string at every character satisfying p. -/
def splitStr (s : String) (p : Char → Bool) : List String :=
  (chunksAux p s.toList []).map String.mk

/-- Lowercasing, character by character (JS toLowerCase). -/
def strLower (s : String) : String :=
  String.mk (s.toList.map Char.toLower)

/-- Trim of leading and trailing whitespace (JS trim). -/
def trimStr (s : String) : String :=
  String.mk (((s.toList.dropWhile Char.isWhitespace).reverse.dropWhile
    Char.isWhitespace).reverse)

/-- Whitespace normalisation used by the planner:
s.replace whitespace-runs with one space, then trim. -/
def normWs (s : String) : String :=
  " ".intercalate ((splitStr s Char.isWhitespace).filter (fun t => t ≠ ""))

/-- Tokenisation used by textSim: lowercase, replace every character that is
not a lowercase letter, digit or whitespace by a space, split on whitespace,
keep tokens of length at least 3. -/
def toTokens (s : String) : List String :=
  ((splitStr
      (String.mk ((strLower s).toList.map
        (fun c =>
          if (('a' ≤ c ∧ c ≤ 'z') ∨ ('0' ≤ c ∧ c ≤ '9') ∨ c.isWhitespace) then c
          else ' ')))
      Char.isWhitespace).filter (fun t => 3 ≤ t.length))

/-- Jaccard similarity of the two token sets, as in the source textSim. -/
def textSim (a b : String) : ℚ :=
  let A := (toTokens a).dedup
  let B := (toTokens b).dedup
  if A.length = 0 ∨ B.length = 0 then 0
  else
    let inter := (A.filter (fun t => t ∈ B)).length
    let uni := A.length + B.length - inter
    if uni = 0 then 0 else (inter : ℚ) / (uni : ℚ)

/-! ## Answer evaluation and the iteration loop -/

/-- The verdict produced by evaluateAnswerWithLLM. -/
structure Verdict where
  answered : Bool
  confidence : ℚ
  missing_facts : List String
  deriving DecidableEq, Repr

/-- The relevant fields of the JSON value the completion may return; each is
optional because the source reads them off an untyped parsed object
(Boolean(parsed.answered), Number(parsed.confidence) or 0, array check). -/
structure RawVerdict where
  answered : Option Bool
  confidence : Option ℚ
  missing_facts : Option (List String)
  deriving DecidableEq, Repr

/-- evaluateAnswerWithLLM: the completion call and JSON.parse are modelled by
the llmOutcome oracle — none is a failed completion call (outer catch),
some none is unparseable output (inner catch), some (some raw) is a parsed
object whose fields are then coerced exactly as in the source. -/
def evaluateAnswerWithLLM (_query : String) (_spansByUrl : List (String × List String))
    (llmOutcome : Option (Option RawVerdict)) : Verdict :=
  match llmOutcome with
  | none => ⟨false, 0, []⟩
  | some none => ⟨false, 0, []⟩
  | some (some raw) =>
    ⟨raw.answered.getD false, raw.confidence.getD 0, raw.missing_facts.getD []⟩

/-- The convergence check the controller applies at the end of a sync
iteration: evalResult.answered and evalResult.confidence at least 0.6. -/
def convergenceCheck (v : Verdict) : Bool :=
  v.answered && decide ((0.6 : ℚ) ≤ v.confidence)

/-- MAX_ITERATIONS constant of the controller. -/
def MAX_ITERATIONS : ℕ := 2

/-- The controller's for-loop, abstracted over the per-iteration evaluation
verdict: evalAt i is the verdict computed at the end of iteration i
(0-based).  Returns the number of iterations executed.  The convergence
check runs only after a full iteration body, exactly as the source breaks
at the very end of the loop body. -/
def loopRun (evalAt : ℕ → Verdict) : ℕ → ℕ → ℕ
  | 0, i => i
  | fuel + 1, i => if convergenceCheck (evalAt i) then i + 1 else loopRun evalAt fuel (i + 1)

/-- Number of iterations the controller performs for a given evaluation
oracle, with the code's MAX_ITERATIONS = 2 budget. -/
def loopIterations (evalAt : ℕ → Verdict) : ℕ :=
  loopRun evalAt MAX_ITERATIONS 0

/-- Claim C3: if the first iteration's evaluation is answered with
confidence at least 0.6 the loop performs exactly 1 iteration; if every
evaluation is non-converged it performs exactly MAX_ITERATIONS = 2; and for
any evaluation oracle the count is a whole number of complete iterations
between 1 and MAX_ITERATIONS (the stop decision is taken only at an
iteration boundary). -/
theorem C3_loop_iteration_counts (e1 e2 e3 : ℕ → Verdict)
    (h1 : convergenceCheck (e1 0) = true)
    (h2 : ∀ i, convergenceCheck (e2 i) = false) :
    loopIterations e1 = 1 ∧ loopIterations e2 = MAX_ITERATIONS ∧
      (1 ≤ loopIterations e3 ∧ loopIterations e3 ≤ MAX_ITERATIONS) := by
  refine ⟨?_, ?_, ?_⟩
  · simp [loopIterations, MAX_ITERATIONS, loopRun, h1]
  · simp [loopIterations, MAX_ITERATIONS, loopRun, h2 0, h2 1]
  · by_cases hc : convergenceCheck (e3 0) = true
    · simp [loopIterations, MAX_ITERATIONS, loopRun, hc]
    · simp only [Bool.not_eq_true] at hc
      by_cases hc1 : convergenceCheck (e3 1) = true
      · simp [loopIterations, MAX_ITERATIONS, loopRun, hc, hc1]
      · simp only [Bool.not_eq_true] at hc1
        simp [loopIterations, MAX_ITERATIONS, loopRun, hc, hc1]

/-- Witness for C3 at concrete evaluation oracles. -/
theorem C3_loop_iteration_counts_witness :
    loopIterations (fun _ => ⟨true, 1, []⟩) = 1 ∧
      loopIterations (fun _ => ⟨false, 0, []⟩) = MAX_ITERATIONS ∧
      (1 ≤ loopIterations (fun _ => ⟨true, 1, []⟩) ∧
        loopIterations (fun _ => ⟨true, 1, []⟩) ≤ MAX_ITERATIONS) := by
  have h := C3_loop_iteration_counts (fun _ => ⟨true, 1, []⟩) (fun _ => ⟨false, 0, []⟩)
    (fun _ => ⟨true, 1, []⟩) (by decide) (fun _ => rfl)
  exact h

/-- Claim C9: on a failed completion call or unparseable output the
evaluator returns the neutral verdict, that verdict fails the convergence
check, and a loop whose evaluations are all neutral runs the full
MAX_ITERATIONS budget. -/
theorem C9_evaluator_neutral_on_failure (q : String) (spans : List (String × List String))
    (outcome : Option (Option RawVerdict))
    (h : outcome = none ∨ outcome = some none) :
    evaluateAnswerWithLLM q spans outcome = ⟨false, 0, []⟩ ∧
      convergenceCheck (evaluateAnswerWithLLM q spans outcome) = false ∧
      loopIterations (fun _ => evaluateAnswerWithLLM q spans outcome) = MAX_ITERATIONS := by
  rcases h with h | h <;> subst h <;> exact ⟨rfl, rfl, rfl⟩

/-- Witness for C9 at a concrete query, span list and failed call. -/
theorem C9_evaluator_neutral_on_failure_witness :
    evaluateAnswerWithLLM "what is the capital" [("https://a.example", ["span"])] none
        = ⟨false, 0, []⟩ ∧
      convergenceCheck
          (evaluateAnswerWithLLM "what is the capital" [("https://a.example", ["span"])] none)
        = false ∧
      loopIterations
          (fun _ =>
            evaluateAnswerWithLLM "what is the capital" [("https://a.example", ["span"])] none)
        = MAX_ITERATIONS :=
  C9_evaluator_neutral_on_failure "what is the capital" [("https://a.example", ["span"])] none
    (Or.inl rfl)

/-! ## Query expansion planner -/

/-- The dedup-and-cap loop of expandQueriesPlanner: normalise each candidate,
skip empty or case-insensitively seen entries, push otherwise, and stop as
soon as the output has reached maxVariants entries (the length check runs
after the push, as in the source). -/
def collectVariants (maxVariants : ℕ) (seen : List String) (out : List String) :
    List String → List String
  | [] => out
  | v :: rest =>
    let q := normWs v
    if q = "" ∨ strLower q ∈ seen then collectVariants maxVariants seen out rest
    else if maxVariants ≤ out.length + 1 then out ++ [q]
    else collectVariants maxVariants (strLower q :: seen) (out ++ [q]) rest

/-- expandQueriesPlanner: the completion call plus its three-stage parse
fallback is modelled by the llmVariants oracle — none is a completion call
that throws (the catch returns the bare base query), some vs is the parsed
candidate list from whichever parse stage succeeded.  The gap hint only
steers the prompt, hence only the oracle. -/
def expandQueriesPlanner (baseQuery : String) (_gapHint : Option String)
    (maxVariants : ℕ) (llmVariants : Option (List String)) : List String :=
  match llmVariants with
  | none => [baseQuery]
  | some variants =>
    let out := collectVariants maxVariants [] [] variants
    let original := normWs baseQuery
    original :: out.filter (fun v => strLower v ≠ strLower original)

/-- Length bound for the collection loop. -/
theorem collectVariants_length (M : ℕ) (seen out : List String) (vs : List String)
    (h : out.length < max M 1) : (collectVariants M seen out vs).length ≤ max M 1 := by
  induction vs generalizing seen out with
  | nil => simpa [collectVariants] using Nat.le_of_lt h
  | cons v rest ih =>
    simp only [collectVariants]
    by_cases h1 : normWs v = "" ∨ strLower (normWs v) ∈ seen
    · simpa [h1] using ih seen out h
    · simp only [h1, if_false]
      by_cases h2 : M ≤ out.length + 1
      · simpa [h2] using h
      · push_neg at h2
        have hlt : (out ++ [normWs v]).length < max M 1 := by
          simp only [List.length_append, List.length_singleton]
          omega
        simpa [show ¬ M ≤ out.length + 1 by omega] using
          ih (strLower (normWs v) :: seen) (out ++ [normWs v]) hlt

/-- Output entries of the collection loop stay pairwise distinct
case-insensitively, provided the seen set covers the output so far. -/
theorem collectVariants_pairwise (M : ℕ) (seen out : List String) (vs : List String)
    (hpw : out.Pairwise (fun a b => strLower a ≠ strLower b))
    (hseen : ∀ v ∈ out, strLower v ∈ seen) :
    (collectVariants M seen out vs).Pairwise (fun a b => strLower a ≠ strLower b) := by
  induction vs generalizing seen out with
  | nil => simpa [collectVariants] using hpw
  | cons v rest ih =>
    simp only [collectVariants]
    by_cases h1 : normWs v = "" ∨ strLower (normWs v) ∈ seen
    · simpa [h1] using ih seen out hpw hseen
    · push_neg at h1
      have hnew : ∀ w ∈ out, strLower w ≠ strLower (normWs v) := by
        intro w hw heq
        exact h1.2 (heq ▸ hseen w hw)
      have hpw' : (out ++ [normWs v]).Pairwise (fun a b => strLower a ≠ strLower b) := by
        refine List.pairwise_append.mpr ⟨hpw, List.pairwise_singleton _ _, ?_⟩
        intro a ha b hb
        simp only [List.mem_singleton] at hb
        exact hb ▸ hnew a ha
      simp only [not_or] at *
      by_cases h2 : M ≤ out.length + 1
      · simpa [h1.1, h1.2, h2] using hpw'
      · have hseen' : ∀ w ∈ out ++ [normWs v], strLower w ∈ strLower (normWs v) :: seen := by
          intro w hw
          rcases List.mem_append.mp hw with hw | hw
          · exact List.mem_cons_of_mem _ (hseen w hw)
          · simp only [List.mem_singleton] at hw
            simp [hw]
        simpa [h1.1, h1.2, h2] using
          ih (strLower (normWs v) :: seen) (out ++ [normWs v]) hpw' hseen'

/-- Counterexample to claim C4 as stated: with maxVariants 1 and one fresh
candidate the planner returns 2 entries (the cap bounds only the candidate
pool, the original is prepended on top of it); and when the completion call
fails the returned head is the raw base query, not the normalised one. -/
theorem C4_expandQueriesPlanner_counterexample :
    ¬ ((expandQueriesPlanner "best ev" none 1 (some ["best evs 2024"])).length ≤ 1) ∧
      (expandQueriesPlanner " a " none 5 none).head? ≠ some (normWs " a ") := by
  constructor
  · decide
  · decide

/-- Claim C4 (amended): the planner returns the singleton raw base query on
completion failure; otherwise the output has length at most max(M,1)+1, its
first element is the normalised original query, and the remaining entries
are pairwise case-insensitively distinct and case-insensitively distinct
from the original. -/
theorem C4_expandQueriesPlanner_shape (baseQuery : String) (gapHint : Option String)
    (M : ℕ) (llmVariants : Option (List String)) :
    (llmVariants = none → expandQueriesPlanner baseQuery gapHint M llmVariants = [baseQuery]) ∧
      (∀ vs, llmVariants = some vs →
        (expandQueriesPlanner baseQuery gapHint M llmVariants).length ≤ max M 1 + 1 ∧
        (expandQueriesPlanner baseQuery gapHint M llmVariants).head? =
          some (normWs baseQuery) ∧
        (expandQueriesPlanner baseQuery gapHint M llmVariants).tail.Pairwise
          (fun a b => strLower a ≠ strLower b) ∧
        ∀ v ∈ (expandQueriesPlanner baseQuery gapHint M llmVariants).tail,
          strLower v ≠ strLower (normWs baseQuery)) := by
  constructor
  · intro h
    subst h
    rfl
  · intro vs h
    subst h
    refine ⟨?_, rfl, ?_, ?_⟩
    · have hlen := collectVariants_length M [] [] vs (by simp [Nat.lt_of_lt_of_le Nat.zero_lt_one (Nat.le_max_right M 1)])
      have hfilter : ((collectVariants M [] [] vs).filter
          (fun v => strLower v ≠ strLower (normWs baseQuery))).length ≤
            (collectVariants M [] [] vs).length := List.length_filter_le _ _
      simp only [expandQueriesPlanner, List.length_cons]
      omega
    · have hpw := collectVariants_pairwise M [] [] vs (List.Pairwise.nil) (by simp)
      exact List.Pairwise.sublist (List.filter_sublist _) hpw
    · intro v hv
      simp only [expandQueriesPlanner, List.tail_cons] at hv
      have := List.of_mem_filter hv
      simpa using this

/-- Witness for C4 at concrete inputs, covering both the failure branch and
the success branch. -/
theorem C4_expandQueriesPlanner_shape_witness :
    expandQueriesPlanner "who won" none 5 none = ["who won"] ∧
      (expandQueriesPlanner "who  won" none 3 (some ["winner list", "Winner  List"])).head? =
        some (normWs "who  won") := by
  constructor
  · exact (C4_expandQueriesPlanner_shape "who won" none 5 none).1 rfl
  · exact ((C4_expandQueriesPlanner_shape "who  won" none 3
      (some ["winner list", "Winner  List"])).2 ["winner list", "Winner  List"] rfl).2.1

/-! ## Scrape dispatch (synchronous mode) -/

/-- The per-item scrape input assembled before dispatch (ScrapeJobInput). -/
structure ScrapeJobInput where
  url : String
  title : String
  description : String
  deriving DecidableEq

/-- The document returned by waitForJob; every field is optional, it is
spread over the search-result skeleton. -/
structure ScrapeDoc where
  title : Option String
  description : Option String
  url : Option String
  markdown : Option String
  statusCode : Option ℕ
  errorMsg : Option String
  deriving DecidableEq

/-- Model of CostTracking.toJSON(); a fresh tracker serialises to the empty
record. -/
structure CostData where
  entries : List String
  deriving DecidableEq

/-- new CostTracking().toJSON() — the empty cost data. -/
def emptyCost : CostData := ⟨[]⟩

/-- The enriched document produced per item: the object literal fields
title/description/url seeded from the search result, then the scraped
document spread over them. -/
structure EnrichedDoc where
  title : String
  description : String
  url : String
  markdown : Option String
  statusCode : Option ℕ
  errorMsg : Option String
  deriving DecidableEq

/-- Spread of the scraped document over the search-result skeleton:
fields present on the document override the skeleton. -/
def mergeDoc (searchResult : ScrapeJobInput) (doc : ScrapeDoc) : EnrichedDoc :=
  { title := doc.title.getD searchResult.title
    description := doc.description.getD searchResult.description
    url := doc.url.getD searchResult.url
    markdown := doc.markdown
    statusCode := doc.statusCode
    errorMsg := doc.errorMsg }

/-- scrapeSearchResult: the whole try block (job submission, waitForJob with
its timeout, queue removal, cost-tracking retrieval) is the outcome oracle;
any throw lands in the catch, which builds the placeholder document with
statusCode 500, the error message, and fresh empty cost data. -/
def scrapeSearchResult (searchResult : ScrapeJobInput)
    (outcome : Except String (ScrapeDoc × CostData)) : EnrichedDoc × CostData :=
  match outcome with
  | .ok (doc, costTracking) => (mergeDoc searchResult doc, costTracking)
  | .error errMsg =>
    ({ title := searchResult.title
       description := searchResult.description
       url := searchResult.url
       markdown := none
       statusCode := some 500
       errorMsg := some errMsg }, emptyCost)

/-- Synchronous fan-out/fan-in: one scrapeSearchResult per input, joined by
Promise.all.  Each call settles (the catch converts failures in-band), so
the join always yields one result per input. -/
def dispatchSync (inputs : List ScrapeJobInput)
    (outcomeAt : ℕ → Except String (ScrapeDoc × CostData)) :
    List (EnrichedDoc × CostData) :=
  inputs.enum.map (fun p => scrapeSearchResult p.2 (outcomeAt p.1))

/-- Claim C5: in synchronous mode a failing (or timing-out) item yields a
placeholder enriched item with an error status and empty cost data for that
item only; every other item completes with its own outcome, and the batch
always returns exactly one result per dispatched item. -/
theorem C5_dispatch_resilience (inputs : List ScrapeJobInput)
    (outcomeAt : ℕ → Except String (ScrapeDoc × CostData))
    (i : ℕ) (inp : ScrapeJobInput) (e : String)
    (hi : inputs[i]? = some inp) (he : outcomeAt i = .error e) :
    (dispatchSync inputs outcomeAt).length = inputs.length ∧
      (dispatchSync inputs outcomeAt)[i]? =
        some (⟨inp.title, inp.description, inp.url, none, some 500, some e⟩, emptyCost) ∧
      ∀ j inp2 d c, inputs[j]? = some inp2 → outcomeAt j = .ok (d, c) →
        (dispatchSync inputs outcomeAt)[j]? = some (mergeDoc inp2 d, c) := by
  have hget : ∀ n (inp3 : ScrapeJobInput), inputs[n]? = some inp3 →
      (dispatchSync inputs outcomeAt)[n]? =
        some (scrapeSearchResult inp3 (outcomeAt n)) := by
    intro n inp3 hn
    simp [dispatchSync, List.getElem?_map, List.getElem?_enum, hn]
  refine ⟨by simp [dispatchSync], ?_, ?_⟩
  · rw [hget i inp hi]
    simp [scrapeSearchResult, he]
  · intro j inp2 d c hj hc
    rw [hget j inp2 hj]
    simp [scrapeSearchResult, hc]

/-- Witness for C5: five dispatched items, the third one fails, the batch
still returns five results and the third is the error placeholder. -/
theorem C5_dispatch_resilience_witness :
    (dispatchSync
        [⟨"https://a.example", "a", "da"⟩, ⟨"https://b.example", "b", "db"⟩,
          ⟨"https://c.example", "c", "dc"⟩, ⟨"https://d.example", "d", "dd"⟩,
          ⟨"https://e.example", "e", "de"⟩]
        (fun i => if i = 2 then .error "fetch timeout" else
          .ok (⟨none, none, none, some "md", some 200, none⟩, ⟨["call"]⟩))).length = 5 ∧
      (dispatchSync
        [⟨"https://a.example", "a", "da"⟩, ⟨"https://b.example", "b", "db"⟩,
          ⟨"https://c.example", "c", "dc"⟩, ⟨"https://d.example", "d", "dd"⟩,
          ⟨"https://e.example", "e", "de"⟩]
        (fun i => if i = 2 then .error "fetch timeout" else
          .ok (⟨none, none, none, some "md", some 200, none⟩, ⟨["call"]⟩)))[2]? =
        some (⟨"c", "dc", "https://c.example", none, some 500, some "fetch timeout"⟩,
          emptyCost) := by
  have h := C5_dispatch_resilience
    [⟨"https://a.example", "a", "da"⟩, ⟨"https://b.example", "b", "db"⟩,
      ⟨"https://c.example", "c", "dc"⟩, ⟨"https://d.example", "d", "dd"⟩,
      ⟨"https://e.example", "e", "de"⟩]
    (fun i => if i = 2 then .error "fetch timeout" else
      .ok (⟨none, none, none, some "md", some 200, none⟩, ⟨["call"]⟩))
    2 ⟨"https://c.example", "c", "dc"⟩ "fetch timeout" rfl rfl
  exact ⟨h.1, h.2.1⟩

/-! ## Insertion-ordered string-keyed association maps (the JS Map). -/

/-- Lookup (Map.get). -/
def mapGet {α : Type} : List (String × α) → String → Option α
  | [], _ => none
  | (k0, v) :: rest, k => if k0 = k then some v else mapGet rest k

/-- Map.set: replace in place when the key exists, append otherwise. -/
def mapSet {α : Type} : List (String × α) → String → α → List (String × α)
  | [], k, v => [(k, v)]
  | (k0, v0) :: rest, k, v =>
    if k0 = k then (k0, v) :: rest else (k0, v0) :: mapSet rest k v

/-- Update-or-insert, the byUrl.get/byUrl.set pattern of rrfMerge. -/
def mapUpd {α : Type} (k : String) (f : α → α) (dflt : α) :
    List (String × α) → List (String × α)
  | [] => [(k, dflt)]
  | (k0, v) :: rest =>
    if k0 = k then (k0, f v) :: rest else (k0, v) :: mapUpd k f dflt rest

theorem mapGet_mapSet_self {α : Type} (m : List (String × α)) (k : String) (v : α) :
    mapGet (mapSet m k v) k = some v := by
  induction m with
  | nil => simp [mapSet, mapGet]
  | cons p rest ih =>
    by_cases h : p.1 = k
    · simp [mapSet, mapGet, h]
    · simp [mapSet, mapGet, h, ih]

theorem mapGet_mapSet_ne {α : Type} (m : List (String × α)) (k k' : String) (v : α)
    (h : k ≠ k') : mapGet (mapSet m k v) k' = mapGet m k' := by
  induction m with
  | nil => simp [mapSet, mapGet, h]
  | cons p rest ih =>
    obtain ⟨k0, v0⟩ := p
    by_cases h0 : k0 = k
    · subst h0
      simp [mapSet, mapGet, h]
    · by_cases h1 : k0 = k'
      · simp [mapSet, mapGet, h0, h1, Ne.symm h]
      · simp [mapSet, mapGet, h0, h1, ih]

/-- A key holding a value in a mapSet-built map was set at some point. -/
theorem mapGet_mapSet_isSome {α : Type} (m : List (String × α)) (k k' : String) (v : α) :
    (mapGet (mapSet m k v) k').isSome = true →
      k' = k ∨ (mapGet m k').isSome = true := by
  intro h
  by_cases hk : k' = k
  · exact Or.inl hk
  · right
    rwa [mapGet_mapSet_ne m k k' v (fun he => hk he.symm)] at h

/-! ## The post-limit synchronous phase: blocklist filter, dispatch,
enrichment, credits, final rerank. -/

/-- A fused/limited web result (url is present on every fused item). -/
structure WebItem where
  url : String
  title : String
  description : String
  position : Option ℕ
  deriving DecidableEq

/-- A fused/limited news result. -/
structure NewsItem where
  url : Option String
  title : Option String
  snippet : Option String
  deriving DecidableEq

/-- A fused/limited image result. -/
structure ImageItem where
  url : Option String
  title : Option String
  deriving DecidableEq

/-- Tag of an entry of itemsToScrape. -/
inductive ItemType
  | web
  | news
  | image
  deriving DecidableEq

/-- One entry of itemsToScrape (the original item object is never read back
in synchronous mode, so only the tag and the scrape input are kept). -/
structure ScrapeItem where
  itemType : ItemType
  scrapeInput : ScrapeJobInput
  deriving DecidableEq

/-- itemsToScrape: web items whose url is not blocked; news and image items
with a truthy url that is not blocked (news titles and snippets defaulted
with or-empty, image descriptions empty), pushed in web, news, image
order. -/
def itemsToScrape (web : List WebItem) (news : List NewsItem) (images : List ImageItem)
    (isUrlBlocked : String → Bool) : List ScrapeItem :=
  (web.filterMap (fun item =>
    if isUrlBlocked item.url then none
    else some ⟨ItemType.web, ⟨item.url, item.title, item.description⟩⟩))
  ++ ((news.filter (fun item => truthy item.url)).filterMap (fun item =>
    if isUrlBlocked (item.url.getD "") then none
    else some ⟨ItemType.news, ⟨item.url.getD "", item.title.getD "", item.snippet.getD ""⟩⟩))
  ++ ((images.filter (fun item => truthy item.url)).filterMap (fun item =>
    if isUrlBlocked (item.url.getD "") then none
    else some ⟨ItemType.image, ⟨item.url.getD "", item.title.getD "", ""⟩⟩))

/-- resultsMap: one Map.set per dispatched item, keyed by its scrape url. -/
def buildResultsMap (items : List ScrapeItem) (results : List (EnrichedDoc × CostData)) :
    List (String × EnrichedDoc) :=
  ((items.map (fun s => s.scrapeInput.url)).zip (results.map Prod.fst)).foldl
    (fun m p => mapSet m p.1 p.2) []

/-- A web item as emitted: original fields with the scraped document spread
over them, plus the position reassigned by the final rerank. -/
structure EmittedWebItem where
  url : String
  title : String
  description : String
  markdown : Option String
  statusCode : Option ℕ
  errorMsg : Option String
  position : Option ℕ
  deriving DecidableEq

/-- A news item as emitted. -/
structure EmittedNewsItem where
  url : Option String
  title : Option String
  snippet : Option String
  description : Option String
  markdown : Option String
  statusCode : Option ℕ
  errorMsg : Option String
  deriving DecidableEq

/-- An image item as emitted. -/
structure EmittedImageItem where
  url : Option String
  title : Option String
  description : Option String
  markdown : Option String
  statusCode : Option ℕ
  errorMsg : Option String
  deriving DecidableEq

/-- Spread of the (optional) scraped document over one web item: with no
document the item passes through unchanged. -/
def enrichWebItem (item : WebItem) (doc : Option EnrichedDoc) : EmittedWebItem :=
  match doc with
  | none => ⟨item.url, item.title, item.description, none, none, none, item.position⟩
  | some d => ⟨d.url, d.title, d.description, d.markdown, d.statusCode, d.errorMsg,
      item.position⟩

/-- scrapedResponse.web: every (even blocked) web item is mapped, looked up
by url in the results map. -/
def enrichWeb (web : List WebItem) (rm : List (String × EnrichedDoc)) :
    List EmittedWebItem :=
  web.map (fun item => enrichWebItem item (mapGet rm item.url))

/-- Spread of the (optional) scraped document over one news item. -/
def enrichNewsItem (item : NewsItem) (doc : Option EnrichedDoc) : EmittedNewsItem :=
  match doc with
  | none => ⟨item.url, item.title, item.snippet, none, none, none, none⟩
  | some d => ⟨some d.url, some d.title, item.snippet, some d.description, d.markdown,
      d.statusCode, d.errorMsg⟩

/-- scrapedResponse.news: mapped over all news items; the lookup only runs
for a truthy url. -/
def enrichNews (news : List NewsItem) (rm : List (String × EnrichedDoc)) :
    List EmittedNewsItem :=
  news.map (fun item =>
    enrichNewsItem item (if truthy item.url then mapGet rm (item.url.getD "") else none))

/-- Spread of the (optional) scraped document over one image item. -/
def enrichImageItem (item : ImageItem) (doc : Option EnrichedDoc) : EmittedImageItem :=
  match doc with
  | none => ⟨item.url, item.title, none, none, none, none⟩
  | some d => ⟨some d.url, some d.title, some d.description, d.markdown, d.statusCode,
      d.errorMsg⟩

/-- scrapedResponse.images: mapped over all image items. -/
def enrichImages (images : List ImageItem) (rm : List (String × EnrichedDoc)) :
    List EmittedImageItem :=
  images.map (fun item =>
    enrichImageItem item (if truthy item.url then mapGet rm (item.url.getD "") else none))

/-- simSum of the final rerank: 0 for empty-after-trim text, else the sum of
textSim against every expanded query. -/
def simSumStr (text : String) (qs : List String) : ℚ :=
  if trimStr text = "" then 0 else (qs.map (fun q => textSim text q)).sum

/-- Snippet text used by the final rerank: the description if nonempty after
trim, else the title. -/
def webSnippetText (item : EmittedWebItem) : String :=
  if trimStr item.description ≠ "" then item.description else item.title

/-- One scored entry of the final rerank. -/
structure ScoredWeb where
  item : EmittedWebItem
  score : ℚ
  idx : ℕ
  deriving DecidableEq

/-- The rerank order: higher score first, ties by original index (the
source comparator returns a.idx - b.idx on equal scores).  The engine sort
is stable, so its output is the unique stable ordering for this comparator;
a structurally recursive stable sort reproduces it exactly. -/
def rerankRel (a b : ScoredWeb) : Prop :=
  b.score < a.score ∨ (a.score = b.score ∧ a.idx ≤ b.idx)

instance rerankRelDecidable : DecidableRel rerankRel := fun a b =>
  inferInstanceAs (Decidable (b.score < a.score ∨ (a.score = b.score ∧ a.idx ≤ b.idx)))

/-- Final snippet-similarity rerank of the web category, with positions
renumbered 1..N. -/
def rerankWeb (web : List EmittedWebItem) (expandedQs : List String) :
    List EmittedWebItem :=
  ((web.enum.map (fun p =>
    ScoredWeb.mk p.2 (simSumStr (webSnippetText p.2) expandedQs) p.1)).insertionSort
      rerankRel).enum.map
    (fun p => { p.2.item with position := some (p.1 + 1) })

/-- The outcome of the synchronous phase of one iteration, run on the
already fused, labelled and limited category lists. -/
structure SyncOutcome where
  web : List EmittedWebItem
  news : List EmittedNewsItem
  images : List EmittedImageItem
  scrapeItems : List ScrapeItem
  creditOpts : List (Option ℚ)
  credits : ℚ

/-- The synchronous phase: build itemsToScrape (blocklist filter), dispatch
all of them, enrich each category from the results map, compute the credits
(per-item credit calls joined by Promise.all; if any of them fails the catch
falls back to billing the pre-filter totalResultsCount), and finally rerank
the web list.  creditsFor is the calculateCreditsToBeBilled collaborator,
returning none when that call rejects. -/
def syncPhase (web : List WebItem) (news : List NewsItem) (images : List ImageItem)
    (isUrlBlocked : String → Bool)
    (outcomeAt : ℕ → Except String (ScrapeDoc × CostData))
    (creditsFor : EnrichedDoc → CostData → Option ℚ)
    (expandedQs : List String) : SyncOutcome :=
  let items := itemsToScrape web news images isUrlBlocked
  let results := dispatchSync (items.map (fun s => s.scrapeInput)) outcomeAt
  let totalResultsCount := web.length + images.length + news.length
  let rm := buildResultsMap items results
  let creditOpts := results.map (fun r => creditsFor r.1 r.2)
  { web := rerankWeb (enrichWeb web rm) expandedQs
    news := enrichNews news rm
    images := enrichImages images rm
    scrapeItems := items
    creditOpts := creditOpts
    credits :=
      if creditOpts.all Option.isSome then (creditOpts.map (fun o => o.getD 0)).sum
      else (totalResultsCount : ℚ) }

/-- Every entry of itemsToScrape has an unblocked url. -/
theorem itemsToScrape_not_blocked (web : List WebItem) (news : List NewsItem)
    (images : List ImageItem) (bf : String → Bool) :
    ∀ s ∈ itemsToScrape web news images bf, bf s.scrapeInput.url = false := by
  intro s hs
  simp only [itemsToScrape, List.mem_append, List.mem_filterMap, List.mem_filter] at hs
  rcases hs with (⟨item, _hmem, hit⟩ | ⟨item, _hmem, hit⟩) | ⟨item, _hmem, hit⟩ <;>
    · split at hit
      case isTrue hb => exact absurd hit (by simp)
      case isFalse hb =>
        obtain rfl := Option.some.inj hit
        simpa using hb

/-- Keys of the results map come from the dispatched scrape inputs. -/
theorem mapGet_foldl_mapSet_isSome {α : Type} (ps : List (String × α))
    (m : List (String × α)) (u : String)
    (h : (mapGet (ps.foldl (fun acc p => mapSet acc p.1 p.2) m) u).isSome = true) :
    (mapGet m u).isSome = true ∨ u ∈ ps.map Prod.fst := by
  induction ps generalizing m with
  | nil => exact Or.inl h
  | cons p rest ih =>
    rcases ih (mapSet m p.1 p.2) h with h1 | h1
    · rcases mapGet_mapSet_isSome m p.1 u p.2 h1 with he | hm
      · right
        simp [he]
      · exact Or.inl hm
    · right
      simp [h1]

/-- A url holding a document in the results map was dispatched. -/
theorem buildResultsMap_key_mem (items : List ScrapeItem)
    (results : List (EnrichedDoc × CostData)) (u : String)
    (h : (mapGet (buildResultsMap items results) u).isSome = true) :
    u ∈ items.map (fun s => s.scrapeInput.url) := by
  rcases mapGet_foldl_mapSet_isSome _ [] u h with h1 | h1
  · simp [mapGet] at h1
  · rcases List.mem_map.mp h1 with ⟨p, hp, rfl⟩
    obtain ⟨a, b⟩ := p
    have hmem := (List.of_mem_zip hp).1
    exact hmem

/-- A blocked url is never a key of the results map. -/
theorem buildResultsMap_blocked_none (web : List WebItem) (news : List NewsItem)
    (images : List ImageItem) (bf : String → Bool)
    (results : List (EnrichedDoc × CostData)) (u : String) (hb : bf u = true) :
    mapGet (buildResultsMap (itemsToScrape web news images bf) results) u = none := by
  by_contra h
  have hsome : (mapGet (buildResultsMap (itemsToScrape web news images bf) results) u).isSome
      = true := by
    rcases Option.eq_none_or_eq_some
        (mapGet (buildResultsMap (itemsToScrape web news images bf) results) u) with h1 | ⟨v, h1⟩
    · exact absurd h1 h
    · simp [h1]
  have hmem := buildResultsMap_key_mem _ _ _ hsome
  rcases List.mem_map.mp hmem with ⟨s, hsmem, hurl⟩
  have := itemsToScrape_not_blocked web news images bf s hsmem
  rw [hurl, hb] at this
  exact Bool.true_eq_false.mp this

/-- The rerank permutes the emitted web urls. -/
theorem rerankWeb_map_url_perm (l : List EmittedWebItem) (qs : List String) :
    ((rerankWeb l qs).map (fun it => it.url)).Perm (l.map (fun it => it.url)) := by
  unfold rerankWeb
  rw [List.map_map]
  have h1 : ∀ (xs : List ScoredWeb),
      xs.enum.map ((fun it => it.url) ∘
          (fun p : ℕ × ScoredWeb => ({ p.2.item with position := some (p.1 + 1) } : EmittedWebItem)))
        = xs.map (fun sw => sw.item.url) := by
    intro xs
    have he : ((fun it => it.url) ∘
        (fun p : ℕ × ScoredWeb => ({ p.2.item with position := some (p.1 + 1) } : EmittedWebItem)))
        = (fun sw : ScoredWeb => sw.item.url) ∘ Prod.snd := rfl
    rw [he, ← List.map_map, List.enum_eq_enumFrom, List.enumFrom_map_snd]
  rw [h1]
  have h2 := (List.perm_insertionSort rerankRel (l.enum.map (fun p =>
    ScoredWeb.mk p.2 (simSumStr (webSnippetText p.2) qs) p.1))).map
      (fun sw : ScoredWeb => sw.item.url)
  refine h2.trans ?_
  rw [List.map_map]
  have he2 : ((fun sw : ScoredWeb => sw.item.url) ∘
      (fun p : ℕ × EmittedWebItem =>
        ScoredWeb.mk p.2 (simSumStr (webSnippetText p.2) qs) p.1))
      = (fun it : EmittedWebItem => it.url) ∘ Prod.snd := rfl
  rw [he2, ← List.map_map, List.enum_eq_enumFrom, List.enumFrom_map_snd]

/-- Claim C6 (amended): a blocked URL is never part of the dispatcher's
input set, and whenever every per-item credit computation succeeds the
request total is exactly the sum of the per-item credits of the dispatched
(hence unblocked) items, so a blocked item contributes 0 to it.  (When a
credit computation fails the code falls back to billing the pre-filter
result count, which does include blocked items — see the counterexample.) -/
theorem C6_blocklist_never_billed (web : List WebItem) (news : List NewsItem)
    (images : List ImageItem) (bf : String → Bool)
    (outcomeAt : ℕ → Except String (ScrapeDoc × CostData))
    (creditsFor : EnrichedDoc → CostData → Option ℚ) (qs : List String) :
    (∀ s ∈ (syncPhase web news images bf outcomeAt creditsFor qs).scrapeItems,
        bf s.scrapeInput.url = false) ∧
      ((syncPhase web news images bf outcomeAt creditsFor qs).creditOpts.all Option.isSome
          = true →
        (syncPhase web news images bf outcomeAt creditsFor qs).credits =
          ((syncPhase web news images bf outcomeAt creditsFor qs).creditOpts.map
            (fun o => o.getD 0)).sum) := by
  constructor
  · intro s hs
    have hs' : s ∈ itemsToScrape web news images bf := by
      simpa [syncPhase] using hs
    exact itemsToScrape_not_blocked web news images bf s hs'
  · intro hall
    simp only [syncPhase] at hall ⊢
    rw [if_pos hall]

/-- Witness for C6: one unblocked item, successful credit computation. -/
theorem C6_blocklist_never_billed_witness :
    (syncPhase [⟨"https://ok.example", "ot", "od", some 1⟩] [] []
        (fun u => u == "https://blocked.example")
        (fun _ => Except.ok (⟨none, none, none, none, some 200, none⟩, emptyCost))
        (fun _ _ => some 3) []).credits =
      ((syncPhase [⟨"https://ok.example", "ot", "od", some 1⟩] [] []
        (fun u => u == "https://blocked.example")
        (fun _ => Except.ok (⟨none, none, none, none, some 200, none⟩, emptyCost))
        (fun _ _ => some 3) []).creditOpts.map (fun o => o.getD 0)).sum :=
  (C6_blocklist_never_billed [⟨"https://ok.example", "ot", "od", some 1⟩] [] []
    (fun u => u == "https://blocked.example")
    (fun _ => Except.ok (⟨none, none, none, none, some 200, none⟩, emptyCost))
    (fun _ _ => some 3) []).2 (by decide)

/-- Counterexample to claim C6 as stated: when a per-item credit computation
fails, the fallback bills the pre-filter result count, and then a blocked
item does contribute to the total — with the blocked item present the
request bills 2 credits, without it only 1. -/
theorem C6_blocklist_counterexample :
    (syncPhase
        [⟨"https://blocked.example", "bt", "bd", some 1⟩,
          ⟨"https://ok.example", "ot", "od", some 2⟩] [] []
        (fun u => u == "https://blocked.example")
        (fun _ => Except.ok (⟨none, none, none, none, some 200, none⟩, emptyCost))
        (fun _ _ => none) []).credits = ((2 : ℕ) : ℚ) ∧
      (syncPhase [⟨"https://ok.example", "ot", "od", some 2⟩] [] []
        (fun u => u == "https://blocked.example")
        (fun _ => Except.ok (⟨none, none, none, none, some 200, none⟩, emptyCost))
        (fun _ _ => none) []).credits = ((1 : ℕ) : ℚ) := by
  constructor
  · decide
  · decide

/-- Claim C7 (amended): the blocklist filter removes blocked URLs only from
the dispatcher's input set; items with blocked URLs are not removed from
the emitted category lists — they are still present (unenriched) in the
web, news and image lists of the response. -/
theorem C7_blocked_items_remain (web : List WebItem) (news : List NewsItem)
    (images : List ImageItem) (bf : String → Bool)
    (outcomeAt : ℕ → Except String (ScrapeDoc × CostData))
    (creditsFor : EnrichedDoc → CostData → Option ℚ) (qs : List String) :
    (∀ s ∈ (syncPhase web news images bf outcomeAt creditsFor qs).scrapeItems,
        bf s.scrapeInput.url = false) ∧
      (∀ item ∈ web, bf item.url = true →
        item.url ∈ (syncPhase web news images bf outcomeAt creditsFor qs).web.map
          (fun it => it.url)) ∧
      (∀ item ∈ news, bf (item.url.getD "") = true →
        item.url ∈ (syncPhase web news images bf outcomeAt creditsFor qs).news.map
          (fun it => it.url)) ∧
      (∀ item ∈ images, bf (item.url.getD "") = true →
        item.url ∈ (syncPhase web news images bf outcomeAt creditsFor qs).images.map
          (fun it => it.url)) := by
  refine ⟨?_, ?_, ?_, ?_⟩
  · intro s hs
    have hs' : s ∈ itemsToScrape web news images bf := by
      simpa [syncPhase] using hs
    exact itemsToScrape_not_blocked web news images bf s hs'
  · intro item hmem hb
    have hweb : (syncPhase web news images bf outcomeAt creditsFor qs).web =
        rerankWeb (enrichWeb web
          (buildResultsMap (itemsToScrape web news images bf)
            (dispatchSync ((itemsToScrape web news images bf).map
              (fun s => s.scrapeInput)) outcomeAt))) qs := by
      simp [syncPhase]
    rw [hweb]
    have hperm := rerankWeb_map_url_perm (enrichWeb web
      (buildResultsMap (itemsToScrape web news images bf)
        (dispatchSync ((itemsToScrape web news images bf).map
          (fun s => s.scrapeInput)) outcomeAt))) qs
    rw [hperm.mem_iff]
    have hnone := buildResultsMap_blocked_none web news images bf
      (dispatchSync ((itemsToScrape web news images bf).map
        (fun s => s.scrapeInput)) outcomeAt) item.url hb
    refine List.mem_map.mpr ⟨enrichWebItem item none, ?_, rfl⟩
    have : enrichWebItem item (mapGet
        (buildResultsMap (itemsToScrape web news images bf)
          (dispatchSync ((itemsToScrape web news images bf).map
            (fun s => s.scrapeInput)) outcomeAt)) item.url) = enrichWebItem item none := by
      rw [hnone]
    exact this ▸ List.mem_map_of_mem _ hmem
  · intro item hmem hb
    have hnews : (syncPhase web news images bf outcomeAt creditsFor qs).news =
        enrichNews news (buildResultsMap (itemsToScrape web news images bf)
          (dispatchSync ((itemsToScrape web news images bf).map
            (fun s => s.scrapeInput)) outcomeAt)) := by
      simp [syncPhase]
    rw [hnews]
    have hnone := buildResultsMap_blocked_none web news images bf
      (dispatchSync ((itemsToScrape web news images bf).map
        (fun s => s.scrapeInput)) outcomeAt) (item.url.getD "") hb
    have harg : (if truthy item.url then mapGet
        (buildResultsMap (itemsToScrape web news images bf)
          (dispatchSync ((itemsToScrape web news images bf).map
            (fun s => s.scrapeInput)) outcomeAt)) (item.url.getD "") else none) = none := by
      by_cases ht : truthy item.url = true
      · simp [ht, hnone]
      · simp [ht]
    refine List.mem_map.mpr ⟨enrichNewsItem item none, ?_, rfl⟩
    unfold enrichNews
    refine List.mem_map.mpr ⟨item, hmem, ?_⟩
    simp only [harg]
  · intro item hmem hb
    have himg : (syncPhase web news images bf outcomeAt creditsFor qs).images =
        enrichImages images (buildResultsMap (itemsToScrape web news images bf)
          (dispatchSync ((itemsToScrape web news images bf).map
            (fun s => s.scrapeInput)) outcomeAt)) := by
      simp [syncPhase]
    rw [himg]
    have hnone := buildResultsMap_blocked_none web news images bf
      (dispatchSync ((itemsToScrape web news images bf).map
        (fun s => s.scrapeInput)) outcomeAt) (item.url.getD "") hb
    have harg : (if truthy item.url then mapGet
        (buildResultsMap (itemsToScrape web news images bf)
          (dispatchSync ((itemsToScrape web news images bf).map
            (fun s => s.scrapeInput)) outcomeAt)) (item.url.getD "") else none) = none := by
      by_cases ht : truthy item.url = true
      · simp [ht, hnone]
      · simp [ht]
    refine List.mem_map.mpr ⟨enrichImageItem item none, ?_, rfl⟩
    unfold enrichImages
    refine List.mem_map.mpr ⟨item, hmem, ?_⟩
    simp only [harg]

/-- Witness for C7 at a concrete blocked item. -/
theorem C7_blocked_items_remain_witness :
    ("https://blocked.example" : String) ∈
      (syncPhase
        [⟨"https://blocked.example", "t", "d", some 1⟩,
          ⟨"https://ok.example", "ot", "od", some 2⟩] [] []
        (fun u => u == "https://blocked.example")
        (fun _ => Except.ok (⟨none, none, none, none, some 200, none⟩, emptyCost))
        (fun _ _ => some 1) []).web.map (fun it => it.url) :=
  (C7_blocked_items_remain
    [⟨"https://blocked.example", "t", "d", some 1⟩,
      ⟨"https://ok.example", "ot", "od", some 2⟩] [] []
    (fun u => u == "https://blocked.example")
    (fun _ => Except.ok (⟨none, none, none, none, some 200, none⟩, emptyCost))
    (fun _ _ => some 1) []).2.1
    ⟨"https://blocked.example", "t", "d", some 1⟩ (by decide) (by decide)

/-- Counterexample to claim C7 as stated: a blocked URL does appear in the
emitted web list (blocking only suppresses its scrape and its billing). -/
theorem C7_blocked_items_remain_counterexample :
    ((fun u => u == "https://blocked.example") "https://blocked.example") = true ∧
      (syncPhase [⟨"https://blocked.example", "t", "d", some 1⟩] [] []
        (fun u => u == "https://blocked.example")
        (fun _ => Except.error "never dispatched")
        (fun _ _ => some 1) []).web.map (fun it => it.url) = ["https://blocked.example"] := by
  constructor
  · decide
  · decide

/-- Claim C8 (amended): in synchronous mode the credit collaborator is
invoked exactly once per dispatched item; when every one of those calls
succeeds the request total is their sum, and when any of them fails the
total falls back to the pre-filter result count instead of a sum. -/
theorem C8_credit_total (web : List WebItem) (news : List NewsItem)
    (images : List ImageItem) (bf : String → Bool)
    (outcomeAt : ℕ → Except String (ScrapeDoc × CostData))
    (creditsFor : EnrichedDoc → CostData → Option ℚ) (qs : List String) :
    (syncPhase web news images bf outcomeAt creditsFor qs).creditOpts.length =
        (syncPhase web news images bf outcomeAt creditsFor qs).scrapeItems.length ∧
      ((syncPhase web news images bf outcomeAt creditsFor qs).creditOpts.all Option.isSome
          = true →
        (syncPhase web news images bf outcomeAt creditsFor qs).credits =
          ((syncPhase web news images bf outcomeAt creditsFor qs).creditOpts.map
            (fun o => o.getD 0)).sum) ∧
      ((syncPhase web news images bf outcomeAt creditsFor qs).creditOpts.all Option.isSome
          = false →
        (syncPhase web news images bf outcomeAt creditsFor qs).credits =
          ((web.length + images.length + news.length : ℕ) : ℚ)) := by
  refine ⟨?_, ?_, ?_⟩
  · simp [syncPhase, dispatchSync]
  · intro hall
    simp only [syncPhase] at hall ⊢
    rw [if_pos hall]
  · intro hnot
    simp only [syncPhase] at hnot ⊢
    rw [if_neg (by simp [hnot])]

/-- Witness for C8: two items, both credit computations succeed, the total
is their sum. -/
theorem C8_credit_total_witness :
    (syncPhase
        [⟨"https://a.example", "at", "ad", some 1⟩,
          ⟨"https://b.example", "bt", "bd", some 2⟩] [] []
        (fun _ => false)
        (fun _ => Except.ok (⟨none, none, none, none, some 200, none⟩, emptyCost))
        (fun _ _ => some 2) []).credits =
      ((syncPhase
        [⟨"https://a.example", "at", "ad", some 1⟩,
          ⟨"https://b.example", "bt", "bd", some 2⟩] [] []
        (fun _ => false)
        (fun _ => Except.ok (⟨none, none, none, none, some 200, none⟩, emptyCost))
        (fun _ _ => some 2) []).creditOpts.map (fun o => o.getD 0)).sum :=
  (C8_credit_total
    [⟨"https://a.example", "at", "ad", some 1⟩,
      ⟨"https://b.example", "bt", "bd", some 2⟩] [] []
    (fun _ => false)
    (fun _ => Except.ok (⟨none, none, none, none, some 200, none⟩, emptyCost))
    (fun _ _ => some 2) []).2.1 (by decide)

/-- Counterexample to claim C8 as stated: with two produced items, one
successful credit value 7 and one failing credit call, the request total is
the fallback count 2, not a sum of per-item credit values. -/
theorem C8_credit_total_counterexample :
    (syncPhase
        [⟨"https://a.example", "at", "ad", some 1⟩,
          ⟨"https://b.example", "bt", "bd", some 2⟩] [] []
        (fun _ => false)
        (fun _ => Except.ok (⟨none, none, none, none, some 200, none⟩, emptyCost))
        (fun d _ => if d.url == "https://a.example" then some 7 else none)
        []).creditOpts = [some 7, none] ∧
      (syncPhase
        [⟨"https://a.example", "at", "ad", some 1⟩,
          ⟨"https://b.example", "bt", "bd", some 2⟩] [] []
        (fun _ => false)
        (fun _ => Except.ok (⟨none, none, none, none, some 200, none⟩, emptyCost))
        (fun d _ => if d.url == "https://a.example" then some 7 else none)
        []).credits = ((2 : ℕ) : ℚ) := by
  constructor
  · decide
  · decide

/-! ## Reciprocal rank fusion (rrfMerge) -/

theorem mapGet_mapUpd_self {α : Type} (m : List (String × α)) (k : String)
    (f : α → α) (d : α) :
    mapGet (mapUpd k f d m) k = some ((mapGet m k).elim d f) := by
  induction m with
  | nil => simp [mapUpd, mapGet]
  | cons p rest ih =>
    obtain ⟨k0, v0⟩ := p
    by_cases h0 : k0 = k
    · subst h0
      simp [mapUpd, mapGet]
    · simp [mapUpd, mapGet, h0, ih]

theorem mapGet_mapUpd_ne {α : Type} (m : List (String × α)) (k k' : String)
    (f : α → α) (d : α) (h : k ≠ k') :
    mapGet (mapUpd k f d m) k' = mapGet m k' := by
  induction m with
  | nil => simp [mapUpd, mapGet, h]
  | cons p rest ih =>
    obtain ⟨k0, v0⟩ := p
    by_cases h0 : k0 = k
    · subst h0
      simp [mapUpd, mapGet, h]
    · by_cases h1 : k0 = k'
      · simp [mapUpd, mapGet, h0, h1, Ne.symm h]
      · simp [mapUpd, mapGet, h0, h1, ih]

theorem mapGet_isSome_iff_mem_keys {α : Type} (m : List (String × α)) (k : String) :
    (mapGet m k).isSome = true ↔ k ∈ m.map Prod.fst := by
  induction m with
  | nil => simp [mapGet]
  | cons p rest ih =>
    obtain ⟨k0, v0⟩ := p
    by_cases h0 : k0 = k
    · subst h0
      simp [mapGet]
    · simp [mapGet, h0, ih, Ne.symm h0]

theorem keys_mapUpd {α : Type} (m : List (String × α)) (k : String) (f : α → α) (d : α) :
    (mapUpd k f d m).map Prod.fst =
      if k ∈ m.map Prod.fst then m.map Prod.fst else m.map Prod.fst ++ [k] := by
  induction m with
  | nil => simp [mapUpd]
  | cons p rest ih =>
    obtain ⟨k0, v0⟩ := p
    by_cases h0 : k0 = k
    · subst h0
      simp [mapUpd]
    · simp only [mapUpd, if_neg h0, List.map_cons, ih]
      by_cases hk : k ∈ rest.map Prod.fst
      · simp [hk, Ne.symm h0]
      · simp [hk, Ne.symm h0]

theorem nodup_keys_mapUpd {α : Type} (m : List (String × α)) (k : String)
    (f : α → α) (d : α) (h : (m.map Prod.fst).Nodup) :
    ((mapUpd k f d m).map Prod.fst).Nodup := by
  rw [keys_mapUpd]
  by_cases hk : k ∈ m.map Prod.fst
  · simpa [hk] using h
  · rw [if_neg hk]
    exact List.Nodup.append h (List.nodup_singleton k)
      (fun a ha hb => hk ((List.mem_singleton.mp hb) ▸ ha))

theorem mapGet_mem {α : Type} (m : List (String × α)) (k : String) (v : α)
    (h : mapGet m k = some v) : (k, v) ∈ m := by
  induction m with
  | nil => simp [mapGet] at h
  | cons p rest ih =>
    obtain ⟨k0, v0⟩ := p
    by_cases h0 : k0 = k
    · subst h0
      have hv : v0 = v := by simpa [mapGet] using h
      subst hv
      exact List.mem_cons_self _ _
    · simp only [mapGet, if_neg h0] at h
      exact List.mem_cons_of_mem _ (ih h)

theorem mapGet_eq_of_mem_nodup {α : Type} (m : List (String × α)) (k : String) (v : α)
    (hnd : (m.map Prod.fst).Nodup) (h : (k, v) ∈ m) : mapGet m k = some v := by
  induction m with
  | nil => simp at h
  | cons p rest ih =>
    obtain ⟨k0, v0⟩ := p
    rcases List.mem_cons.mp h with h1 | h1
    · obtain ⟨rfl, rfl⟩ := Prod.mk.injEq .. ▸ (Prod.ext_iff.mp h1)
      simp [mapGet]
    · have hk0 : k0 ≠ k := by
        intro he
        subst he
        have : k0 ∈ rest.map Prod.fst :=
          List.mem_map.mpr ⟨(k0, v), h1, rfl⟩
        exact (List.nodup_cons.mp hnd).1 this
      simp only [mapGet, if_neg hk0]
      exact ih (List.nodup_cons.mp hnd).2 h1

/-- A fused search-result item: url and position optional (the source casts
to any and defends against absence), title and description as plain text
(absent is the empty string, which the source treats identically through
its falsiness checks). -/
structure SearchItem where
  url : Option String
  position : Option ℕ
  title : String
  description : String
  deriving DecidableEq

/-- The key under which rrfMerge accumulates an item: none when the url is
falsy (absent or empty string — the source tests !url). -/
def keyOf (item : SearchItem) : Option String :=
  match item.url with
  | none => none
  | some u => if u = "" then none else some u

theorem keyOf_eq_some {item : SearchItem} {u : String} :
    keyOf item = some u ↔ item.url = some u ∧ u ≠ "" := by
  cases h : item.url with
  | none => simp [keyOf, h]
  | some v =>
    by_cases hv : v = ""
    · subst hv
      constructor
      · intro hc
        simp [keyOf, h] at hc
      · rintro ⟨he, hne⟩
        exact absurd (Option.some.inj he).symm hne
    · constructor
      · intro hc
        have hvu : v = u := by simpa [keyOf, h, hv] using hc
        subst hvu
        exact ⟨rfl, hv⟩
      · rintro ⟨he, _⟩
        have hvu : v = u := Option.some.inj he
        subst hvu
        simp [keyOf, h, hv]

/-- Effective rank of an occurrence: the item's position field, defaulting
to the 0-based index plus one (the ?? operator). -/
def rankOf (item : SearchItem) (idx : ℕ) : ℕ :=
  item.position.getD (idx + 1)

/-- The per-url accumulator of rrfMerge. -/
structure Acc where
  score : ℚ
  base : ℚ
  sim : ℚ
  bestItem : SearchItem
  bestRank : ℕ
  bestVariantIdx : ℕ
  deriving DecidableEq

/-- Processing one occurrence (one forEach step of rrfMerge): skip falsy
urls; otherwise add 1/(k+rank) to score and base, creating the entry on
first sight, and keep as representative the occurrence with the smallest
rank, ties broken by the earliest variant. -/
def insertOcc (k : ℚ) (variantIdx : ℕ) (byUrl : List (String × Acc)) (idx : ℕ)
    (item : SearchItem) : List (String × Acc) :=
  match keyOf item with
  | none => byUrl
  | some url =>
    let rank := rankOf item idx
    let add : ℚ := 1 / (k + (rank : ℚ))
    mapUpd url
      (fun prev =>
        let upd := { prev with score := prev.score + add, base := prev.base + add }
        if rank < prev.bestRank ∨ (rank = prev.bestRank ∧ variantIdx < prev.bestVariantIdx)
        then { upd with bestItem := item, bestRank := rank, bestVariantIdx := variantIdx }
        else upd)
      ⟨add, add, 0, item, rank, variantIdx⟩
      byUrl

/-- One variant's list (list?.forEach — an undefined list contributes
nothing). -/
def processList (k : ℚ) (variantIdx : ℕ) (byUrl : List (String × Acc)) :
    Option (List SearchItem) → List (String × Acc)
  | none => byUrl
  | some l => l.enum.foldl (fun m p => insertOcc k variantIdx m p.1 p.2) byUrl

/-- The full accumulation pass of rrfMerge over all variant lists. -/
def rrfAccumulate (k : ℚ) (lists : List (Option (List SearchItem))) :
    List (String × Acc) :=
  lists.enum.foldl (fun m q => processList k q.1 m q.2) []

/-- Representative text of an item: its description when nonempty after
trimming, else its title. -/
def textOfItem (item : SearchItem) : String :=
  if trimStr item.description ≠ "" then item.description else item.title

/-- Cumulative snippet similarity of an item's representative text against
every expanded query. -/
def simOfItem (expandedQs : List String) (item : SearchItem) : ℚ :=
  (expandedQs.map (fun q => textSim (textOfItem item) q)).sum

/-- The update applied to one accumulator by the snippet-similarity pass:
sim := Σ textSim(text, q), score := base + beta * sim. -/
def withSim (expandedQs : List String) (beta : ℚ) (a : Acc) : Acc :=
  { a with sim := simOfItem expandedQs a.bestItem
           score := a.base + beta * simOfItem expandedQs a.bestItem }

/-- The snippet-similarity pass over every accumulated entry. -/
def scorePass (expandedQs : List String) (beta : ℚ) (m : List (String × Acc)) :
    List (String × Acc) :=
  m.map (fun p => (p.1, withSim expandedQs beta p.2))

/-- The descending-score order of the final sort (the engine sort is
stable, so the structurally recursive stable sort reproduces it). -/
def rrfRel (a b : Acc) : Prop := b.score ≤ a.score

instance rrfRelDecidable : DecidableRel rrfRel := fun a b =>
  inferInstanceAs (Decidable (b.score ≤ a.score))

instance rrfRelTotal : IsTotal Acc rrfRel := ⟨fun a b => le_total b.score a.score⟩

instance rrfRelTrans : IsTrans Acc rrfRel :=
  ⟨fun _ _ _ hab hbc => le_trans hbc hab⟩

/-- The accumulator values ordered by descending score
(Array.from(byUrl.values()).sort(...)). -/
def rrfRanked (lists : List (Option (List SearchItem))) (expandedQs : List String)
    (k beta : ℚ) : List Acc :=
  ((scorePass expandedQs beta (rrfAccumulate k lists)).map Prod.snd).insertionSort rrfRel

/-- rrfMerge: accumulate, add the snippet-similarity boost, sort the
accumulator values by descending score, and renumber positions 1..N over
the representative items. -/
def rrfMerge (lists : List (Option (List SearchItem))) (expandedQs : List String)
    (k : ℚ := 60) (beta : ℚ := 0.1) : List SearchItem :=
  (rrfRanked lists expandedQs k beta).enum.map
    (fun p => { p.2.bestItem with position := some (p.1 + 1) })

/-! Characterisation helpers (the quantities rrfMerge computes, written as
direct functions of the input occurrences). -/

/-- Effective ranks of the occurrences of url u in one list. -/
def occRanksOfList (l : List SearchItem) (u : String) : List ℕ :=
  l.enum.filterMap (fun p => if keyOf p.2 = some u then some (rankOf p.2 p.1) else none)

/-- Effective ranks of all occurrences of url u, in traversal order. -/
def occRanks (lists : List (Option (List SearchItem))) (u : String) : List ℕ :=
  (lists.map (fun ol => occRanksOfList (ol.getD []) u)).flatten

/-- The occurrences (items) of url u in one list. -/
def occItemsOfList (l : List SearchItem) (u : String) : List SearchItem :=
  l.filter (fun item => keyOf item = some u)

/-- All occurrences (items) of url u. -/
def occItems (lists : List (Option (List SearchItem))) (u : String) : List SearchItem :=
  (lists.map (fun ol => occItemsOfList (ol.getD []) u)).flatten

/-- All truthy urls carried by input items, in traversal order. -/
def allUrls (lists : List (Option (List SearchItem))) : List String :=
  (lists.map (fun ol => (ol.getD []).filterMap keyOf)).flatten

/-- All defined urls carried by input items (including empty strings). -/
def definedUrls (lists : List (Option (List SearchItem))) : List String :=
  (lists.map (fun ol => (ol.getD []).filterMap SearchItem.url)).flatten

/-- The RRF base score of url u: Σ 1/(k+rank) over its occurrences. -/
def baseSpec (k : ℚ) (lists : List (Option (List SearchItem))) (u : String) : ℚ :=
  ((occRanks lists u).map (fun r : ℕ => 1 / (k + (r : ℚ)))).sum

/-- Base score of an optional accumulator entry. -/
def baseOf (o : Option Acc) : ℚ := (o.map Acc.base).getD 0

/-- Ranks of the occurrences of u among indexed items. -/
def occRanksOfPairs (ps : List (ℕ × SearchItem)) (u : String) : List ℕ :=
  ps.filterMap (fun p => if keyOf p.2 = some u then some (rankOf p.2 p.1) else none)

theorem occRanksOfList_eq_pairs (l : List SearchItem) (u : String) :
    occRanksOfList l u = occRanksOfPairs l.enum u := rfl

theorem insertOcc_keyOf_none (k : ℚ) (v : ℕ) (m : List (String × Acc)) (idx : ℕ)
    (item : SearchItem) (h : keyOf item = none) :
    insertOcc k v m idx item = m := by
  simp [insertOcc, h]

theorem mapGet_insertOcc_ne (k : ℚ) (v : ℕ) (m : List (String × Acc)) (idx : ℕ)
    (item : SearchItem) (u0 u : String) (h : keyOf item = some u0) (hne : u0 ≠ u) :
    mapGet (insertOcc k v m idx item) u = mapGet m u := by
  simp only [insertOcc, h]
  exact mapGet_mapUpd_ne m u0 u _ _ hne

theorem base_insertOcc_self (k : ℚ) (v : ℕ) (m : List (String × Acc)) (idx : ℕ)
    (item : SearchItem) (u : String) (h : keyOf item = some u) :
    baseOf (mapGet (insertOcc k v m idx item) u) =
      baseOf (mapGet m u) + 1 / (k + (rankOf item idx : ℚ)) := by
  simp only [insertOcc, h]
  rw [mapGet_mapUpd_self]
  cases hm : mapGet m u with
  | none => simp [baseOf]
  | some prev =>
    simp only [baseOf, Option.elim, Option.map_some, Option.getD_some]
    split <;> simp

theorem isSome_insertOcc (k : ℚ) (v : ℕ) (m : List (String × Acc)) (idx : ℕ)
    (item : SearchItem) (u : String) :
    (mapGet (insertOcc k v m idx item) u).isSome = true ↔
      (mapGet m u).isSome = true ∨ keyOf item = some u := by
  cases h : keyOf item with
  | none => simp [insertOcc_keyOf_none k v m idx item h]
  | some u0 =>
    by_cases he : u0 = u
    · subst he
      simp only [insertOcc, h]
      rw [mapGet_mapUpd_self]
      simp
    · rw [mapGet_insertOcc_ne k v m idx item u0 u h he]
      simp [he]

theorem bestItem_insertOcc (k : ℚ) (v : ℕ) (m : List (String × Acc)) (idx : ℕ)
    (item : SearchItem) (u : String) (P : SearchItem → Prop)
    (hm : ∀ a, mapGet m u = some a → P a.bestItem)
    (hitem : keyOf item = some u → P item) :
    ∀ a, mapGet (insertOcc k v m idx item) u = some a → P a.bestItem := by
  intro a ha
  cases h : keyOf item with
  | none =>
    rw [insertOcc_keyOf_none k v m idx item h] at ha
    exact hm a ha
  | some u0 =>
    by_cases he : u0 = u
    · subst he
      simp only [insertOcc, h] at ha
      rw [mapGet_mapUpd_self] at ha
      obtain rfl := Option.some.inj ha.symm
      cases hmu : mapGet m u0 with
      | none => simpa [hmu] using hitem h
      | some prev =>
        simp only [hmu, Option.elim]
        split
        · simpa using hitem h
        · simpa using hm prev hmu
    · rw [mapGet_insertOcc_ne k v m idx item u0 u h he] at ha
      exact hm a ha

theorem nodup_keys_insertOcc (k : ℚ) (v : ℕ) (m : List (String × Acc)) (idx : ℕ)
    (item : SearchItem) (h : (m.map Prod.fst).Nodup) :
    ((insertOcc k v m idx item).map Prod.fst).Nodup := by
  cases hk : keyOf item with
  | none => rw [insertOcc_keyOf_none k v m idx item hk]; exact h
  | some u0 =>
    simp only [insertOcc, hk]
    exact nodup_keys_mapUpd m u0 _ _ h

/-! Inner fold (one variant list, pairs of index and item). -/

theorem base_foldl_insertOcc (k : ℚ) (v : ℕ) (ps : List (ℕ × SearchItem))
    (m : List (String × Acc)) (u : String) :
    baseOf (mapGet (ps.foldl (fun m p => insertOcc k v m p.1 p.2) m) u) =
      baseOf (mapGet m u) +
        ((occRanksOfPairs ps u).map (fun r : ℕ => 1 / (k + (r : ℚ)))).sum := by
  induction ps generalizing m with
  | nil => simp [occRanksOfPairs]
  | cons p rest ih =>
    rw [List.foldl_cons, ih]
    cases hk : keyOf p.2 with
    | none =>
      rw [insertOcc_keyOf_none k v m p.1 p.2 hk]
      have hcontrib : occRanksOfPairs (p :: rest) u = occRanksOfPairs rest u := by
        simp [occRanksOfPairs, List.filterMap_cons, hk]
      rw [hcontrib]
    | some u0 =>
      by_cases he : u0 = u
      · subst he
        rw [base_insertOcc_self k v m p.1 p.2 u0 hk]
        have hcontrib : occRanksOfPairs (p :: rest) u0 =
            rankOf p.2 p.1 :: occRanksOfPairs rest u0 := by
          simp [occRanksOfPairs, List.filterMap_cons, hk]
        rw [hcontrib, List.map_cons, List.sum_cons]
        ring
      · rw [mapGet_insertOcc_ne k v m p.1 p.2 u0 u hk he]
        have hcontrib : occRanksOfPairs (p :: rest) u = occRanksOfPairs rest u := by
          simp [occRanksOfPairs, List.filterMap_cons, hk, he]
        rw [hcontrib]

theorem isSome_foldl_insertOcc (k : ℚ) (v : ℕ) (ps : List (ℕ × SearchItem))
    (m : List (String × Acc)) (u : String) :
    (mapGet (ps.foldl (fun m p => insertOcc k v m p.1 p.2) m) u).isSome = true ↔
      (mapGet m u).isSome = true ∨ ∃ p ∈ ps, keyOf p.2 = some u := by
  induction ps generalizing m with
  | nil => simp
  | cons p rest ih =>
    rw [List.foldl_cons, ih]
    rw [isSome_insertOcc]
    constructor
    · rintro ((h | h) | h)
      · exact Or.inl h
      · exact Or.inr ⟨p, List.mem_cons_self _ _, h⟩
      · obtain ⟨q, hq, hkq⟩ := h
        exact Or.inr ⟨q, List.mem_cons_of_mem _ hq, hkq⟩
    · rintro (h | ⟨q, hq, hkq⟩)
      · exact Or.inl (Or.inl h)
      · rcases List.mem_cons.mp hq with rfl | hq'
        · exact Or.inl (Or.inr hkq)
        · exact Or.inr ⟨q, hq', hkq⟩

theorem bestItem_foldl_insertOcc (k : ℚ) (v : ℕ) (ps : List (ℕ × SearchItem))
    (m : List (String × Acc)) (u : String) (P : SearchItem → Prop)
    (hm : ∀ a, mapGet m u = some a → P a.bestItem)
    (hps : ∀ p ∈ ps, keyOf p.2 = some u → P p.2) :
    ∀ a, mapGet (ps.foldl (fun m p => insertOcc k v m p.1 p.2) m) u = some a →
      P a.bestItem := by
  induction ps generalizing m with
  | nil => exact hm
  | cons p rest ih =>
    rw [List.foldl_cons]
    refine ih (insertOcc k v m p.1 p.2)
      (bestItem_insertOcc k v m p.1 p.2 u P hm
        (hps p (List.mem_cons_self _ _))) ?_
    intro q hq hkq
    exact hps q (List.mem_cons_of_mem _ hq) hkq

theorem nodup_keys_foldl_insertOcc (k : ℚ) (v : ℕ) (ps : List (ℕ × SearchItem))
    (m : List (String × Acc)) (h : (m.map Prod.fst).Nodup) :
    (((ps.foldl (fun m p => insertOcc k v m p.1 p.2) m)).map Prod.fst).Nodup := by
  induction ps generalizing m with
  | nil => exact h
  | cons p rest ih =>
    rw [List.foldl_cons]
    exact ih _ (nodup_keys_insertOcc k v m p.1 p.2 h)

/-- Bridge between enumerated pairs and plain membership. -/
theorem exists_enum_snd {α : Type} (l : List α) (Q : α → Prop) :
    (∃ p ∈ l.enum, Q p.2) ↔ ∃ x ∈ l, Q x := by
  constructor
  · rintro ⟨p, hp, hq⟩
    refine ⟨p.2, ?_, hq⟩
    have : p.2 ∈ l.enum.map Prod.snd := List.mem_map_of_mem _ hp
    rwa [List.enum_eq_enumFrom, List.enumFrom_map_snd] at this
  · rintro ⟨x, hx, hq⟩
    have : x ∈ l.enum.map Prod.snd := by
      rw [List.enum_eq_enumFrom, List.enumFrom_map_snd]
      exact hx
    obtain ⟨p, hp, rfl⟩ := List.mem_map.mp this
    exact ⟨p, hp, hq⟩

/-! Lifting to processList. -/

theorem base_processList (k : ℚ) (v : ℕ) (ol : Option (List SearchItem))
    (m : List (String × Acc)) (u : String) :
    baseOf (mapGet (processList k v m ol) u) =
      baseOf (mapGet m u) +
        ((occRanksOfList (ol.getD []) u).map (fun r : ℕ => 1 / (k + (r : ℚ)))).sum := by
  cases ol with
  | none => simp [processList, occRanksOfList, occRanksOfPairs]
  | some l =>
    rw [occRanksOfList_eq_pairs]
    exact base_foldl_insertOcc k v l.enum m u

theorem isSome_processList (k : ℚ) (v : ℕ) (ol : Option (List SearchItem))
    (m : List (String × Acc)) (u : String) :
    (mapGet (processList k v m ol) u).isSome = true ↔
      (mapGet m u).isSome = true ∨ ∃ item ∈ ol.getD [], keyOf item = some u := by
  cases ol with
  | none => simp [processList]
  | some l =>
    rw [show processList k v m (some l) =
      l.enum.foldl (fun m p => insertOcc k v m p.1 p.2) m from rfl]
    rw [isSome_foldl_insertOcc]
    rw [exists_enum_snd l (fun item => keyOf item = some u)]
    rfl

theorem bestItem_processList (k : ℚ) (v : ℕ) (ol : Option (List SearchItem))
    (m : List (String × Acc)) (u : String) (P : SearchItem → Prop)
    (hm : ∀ a, mapGet m u = some a → P a.bestItem)
    (hl : ∀ item ∈ ol.getD [], keyOf item = some u → P item) :
    ∀ a, mapGet (processList k v m ol) u = some a → P a.bestItem := by
  cases ol with
  | none => exact hm
  | some l =>
    refine bestItem_foldl_insertOcc k v l.enum m u P hm ?_
    intro p hp hkp
    refine hl p.2 ?_ hkp
    have : p.2 ∈ l.enum.map Prod.snd := List.mem_map_of_mem _ hp
    rwa [List.enum_eq_enumFrom, List.enumFrom_map_snd] at this

theorem nodup_keys_processList (k : ℚ) (v : ℕ) (ol : Option (List SearchItem))
    (m : List (String × Acc)) (h : (m.map Prod.fst).Nodup) :
    ((processList k v m ol).map Prod.fst).Nodup := by
  cases ol with
  | none => exact h
  | some l => exact nodup_keys_foldl_insertOcc k v l.enum m h

/-! Outer fold (the variant lists) and the rrfAccumulate characterisation. -/

theorem base_foldl_processList (k : ℚ) (ll : List (ℕ × Option (List SearchItem)))
    (m : List (String × Acc)) (u : String) :
    baseOf (mapGet (ll.foldl (fun m q => processList k q.1 m q.2) m) u) =
      baseOf (mapGet m u) +
        (((ll.map (fun q => occRanksOfList (q.2.getD []) u)).flatten).map
          (fun r : ℕ => 1 / (k + (r : ℚ)))).sum := by
  induction ll generalizing m with
  | nil => simp
  | cons q rest ih =>
    rw [List.foldl_cons, ih, base_processList]
    simp only [List.map_cons, List.flatten_cons, List.map_append, List.sum_append]
    ring

theorem isSome_foldl_processList (k : ℚ) (ll : List (ℕ × Option (List SearchItem)))
    (m : List (String × Acc)) (u : String) :
    (mapGet (ll.foldl (fun m q => processList k q.1 m q.2) m) u).isSome = true ↔
      (mapGet m u).isSome = true ∨
        ∃ q ∈ ll, ∃ item ∈ q.2.getD ([] : List SearchItem), keyOf item = some u := by
  induction ll generalizing m with
  | nil => simp
  | cons q rest ih =>
    rw [List.foldl_cons, ih, isSome_processList]
    constructor
    · rintro ((h | h) | h)
      · exact Or.inl h
      · exact Or.inr ⟨q, List.mem_cons_self _ _, h⟩
      · obtain ⟨q2, hq2, hin⟩ := h
        exact Or.inr ⟨q2, List.mem_cons_of_mem _ hq2, hin⟩
    · rintro (h | ⟨q2, hq2, hin⟩)
      · exact Or.inl (Or.inl h)
      · rcases List.mem_cons.mp hq2 with rfl | hq2'
        · exact Or.inl (Or.inr hin)
        · exact Or.inr ⟨q2, hq2', hin⟩

theorem bestItem_foldl_processList (k : ℚ) (ll : List (ℕ × Option (List SearchItem)))
    (m : List (String × Acc)) (u : String) (P : SearchItem → Prop)
    (hm : ∀ a, mapGet m u = some a → P a.bestItem)
    (hll : ∀ q ∈ ll, ∀ item ∈ q.2.getD ([] : List SearchItem),
      keyOf item = some u → P item) :
    ∀ a, mapGet (ll.foldl (fun m q => processList k q.1 m q.2) m) u = some a →
      P a.bestItem := by
  induction ll generalizing m with
  | nil => exact hm
  | cons q rest ih =>
    rw [List.foldl_cons]
    refine ih (processList k q.1 m q.2)
      (bestItem_processList k q.1 q.2 m u P hm
        (hll q (List.mem_cons_self _ _))) ?_
    intro q2 hq2 item hitem hkey
    exact hll q2 (List.mem_cons_of_mem _ hq2) item hitem hkey

theorem nodup_keys_foldl_processList (k : ℚ) (ll : List (ℕ × Option (List SearchItem)))
    (m : List (String × Acc)) (h : (m.map Prod.fst).Nodup) :
    ((ll.foldl (fun m q => processList k q.1 m q.2) m).map Prod.fst).Nodup := by
  induction ll generalizing m with
  | nil => exact h
  | cons q rest ih =>
    rw [List.foldl_cons]
    exact ih _ (nodup_keys_processList k q.1 q.2 m h)

theorem rrfAccumulate_base (k : ℚ) (lists : List (Option (List SearchItem)))
    (u : String) :
    baseOf (mapGet (rrfAccumulate k lists) u) = baseSpec k lists u := by
  unfold rrfAccumulate baseSpec occRanks
  rw [base_foldl_processList]
  have hmaps : lists.enum.map (fun q => occRanksOfList (q.2.getD []) u) =
      lists.map (fun ol => occRanksOfList (ol.getD []) u) := by
    have : (fun q : ℕ × Option (List SearchItem) => occRanksOfList (q.2.getD []) u) =
        (fun ol : Option (List SearchItem) => occRanksOfList (ol.getD []) u) ∘ Prod.snd :=
      rfl
    rw [this, ← List.map_map, List.enum_eq_enumFrom, List.enumFrom_map_snd]
  rw [hmaps]
  simp [baseOf, mapGet]

theorem rrfAccumulate_isSome (k : ℚ) (lists : List (Option (List SearchItem)))
    (u : String) :
    (mapGet (rrfAccumulate k lists) u).isSome = true ↔ u ∈ allUrls lists := by
  unfold rrfAccumulate
  rw [isSome_foldl_processList]
  simp only [mapGet, Option.isSome_none, Bool.false_eq_true, false_or]
  rw [exists_enum_snd lists
    (fun ol => ∃ item ∈ ol.getD ([] : List SearchItem), keyOf item = some u)]
  unfold allUrls
  simp only [List.mem_flatten, List.mem_map]
  constructor
  · rintro ⟨ol, hol, item, hitem, hkey⟩
    exact ⟨(ol.getD []).filterMap keyOf, ⟨ol, hol, rfl⟩,
      List.mem_filterMap.mpr ⟨item, hitem, hkey⟩⟩
  · rintro ⟨l, ⟨ol, hol, rfl⟩, hmem⟩
    obtain ⟨item, hitem, hkey⟩ := List.mem_filterMap.mp hmem
    exact ⟨ol, hol, item, hitem, hkey⟩

theorem rrfAccumulate_bestItem (k : ℚ) (lists : List (Option (List SearchItem)))
    (u : String) (P : SearchItem → Prop)
    (hall : ∀ ol ∈ lists, ∀ item ∈ ol.getD ([] : List SearchItem),
      keyOf item = some u → P item) :
    ∀ a, mapGet (rrfAccumulate k lists) u = some a → P a.bestItem := by
  unfold rrfAccumulate
  refine bestItem_foldl_processList k lists.enum [] u P (by simp [mapGet]) ?_
  intro q hq item hitem hkey
  have hsnd : q.2 ∈ lists := by
    have : q.2 ∈ lists.enum.map Prod.snd := List.mem_map_of_mem _ hq
    rwa [List.enum_eq_enumFrom, List.enumFrom_map_snd] at this
  exact hall q.2 hsnd item hitem hkey

theorem rrfAccumulate_nodup (k : ℚ) (lists : List (Option (List SearchItem))) :
    ((rrfAccumulate k lists).map Prod.fst).Nodup := by
  unfold rrfAccumulate
  exact nodup_keys_foldl_processList k lists.enum [] (by simp)

/-! scorePass characterisation. -/

theorem mapGet_map_value {α β : Type} (m : List (String × α)) (g : α → β) (u : String) :
    mapGet (m.map (fun p => (p.1, g p.2))) u = (mapGet m u).map g := by
  induction m with
  | nil => simp [mapGet]
  | cons p rest ih =>
    obtain ⟨k0, v0⟩ := p
    by_cases h0 : k0 = u
    · subst h0
      simp [mapGet]
    · simp [mapGet, h0, ih]

theorem mapGet_scorePass (qs : List String) (beta : ℚ) (m : List (String × Acc))
    (u : String) :
    mapGet (scorePass qs beta m) u = (mapGet m u).map (withSim qs beta) := by
  unfold scorePass
  exact mapGet_map_value m (withSim qs beta) u

theorem keys_scorePass (qs : List String) (beta : ℚ) (m : List (String × Acc)) :
    (scorePass qs beta m).map Prod.fst = m.map Prod.fst := by
  unfold scorePass
  rw [List.map_map]
  rfl

/-! Shape of the fused output. -/

/-- Every entry of the scored map holds an accumulator whose representative
item carries exactly the entry's key as its url. -/
theorem scorePass_pair_key (k : ℚ) (qs : List String) (beta : ℚ)
    (lists : List (Option (List SearchItem))) :
    ∀ p ∈ scorePass qs beta (rrfAccumulate k lists), keyOf p.2.bestItem = some p.1 := by
  intro p hp
  have hnd : ((scorePass qs beta (rrfAccumulate k lists)).map Prod.fst).Nodup := by
    rw [keys_scorePass]
    exact rrfAccumulate_nodup k lists
  obtain ⟨u, a⟩ := p
  have hget : mapGet (scorePass qs beta (rrfAccumulate k lists)) u = some a :=
    mapGet_eq_of_mem_nodup _ u a hnd hp
  rw [mapGet_scorePass] at hget
  cases hacc : mapGet (rrfAccumulate k lists) u with
  | none =>
    rw [hacc] at hget
    simp at hget
  | some a0 =>
    rw [hacc] at hget
    have ha : withSim qs beta a0 = a := by
      simpa using hget
    have hkey : keyOf a0.bestItem = some u :=
      rrfAccumulate_bestItem k lists u (fun it => keyOf it = some u)
        (fun _ _ _ _ h => h) a0 hacc
    rw [← ha]
    exact hkey

theorem rrfMerge_map_url (lists : List (Option (List SearchItem))) (qs : List String)
    (k beta : ℚ) :
    (rrfMerge lists qs k beta).map SearchItem.url =
      (rrfRanked lists qs k beta).map (fun a => a.bestItem.url) := by
  unfold rrfMerge
  rw [List.map_map]
  have hc : (SearchItem.url ∘ fun p : ℕ × Acc =>
      ({ p.2.bestItem with position := some (p.1 + 1) } : SearchItem)) =
      (fun a : Acc => a.bestItem.url) ∘ Prod.snd := rfl
  rw [hc, ← List.map_map, List.enum_eq_enumFrom, List.enumFrom_map_snd]

theorem rrfRanked_perm (lists : List (Option (List SearchItem))) (qs : List String)
    (k beta : ℚ) :
    (rrfRanked lists qs k beta).Perm
      ((scorePass qs beta (rrfAccumulate k lists)).map Prod.snd) :=
  List.perm_insertionSort rrfRel _

theorem rrfMerge_length (lists : List (Option (List SearchItem))) (qs : List String)
    (k beta : ℚ) :
    (rrfMerge lists qs k beta).length = (allUrls lists).toFinset.card := by
  have h1 : (rrfMerge lists qs k beta).length = (rrfAccumulate k lists).length := by
    unfold rrfMerge
    rw [List.length_map, List.enum_length, (rrfRanked_perm lists qs k beta).length_eq,
      List.length_map]
    unfold scorePass
    rw [List.length_map]
  have hnd := rrfAccumulate_nodup k lists
  have h2 : (rrfAccumulate k lists).length =
      ((rrfAccumulate k lists).map Prod.fst).length := (List.length_map _ _).symm
  have h3 : ((rrfAccumulate k lists).map Prod.fst).toFinset =
      (allUrls lists).toFinset := by
    ext u
    rw [List.mem_toFinset, List.mem_toFinset, ← mapGet_isSome_iff_mem_keys,
      rrfAccumulate_isSome]
  rw [h1, h2, ← List.toFinset_card_of_nodup hnd, h3]

/-- The accumulator values, listed with their urls. -/
theorem accs_map_url (k : ℚ) (qs : List String) (beta : ℚ)
    (lists : List (Option (List SearchItem))) :
    ((scorePass qs beta (rrfAccumulate k lists)).map Prod.snd).map
        (fun a => a.bestItem.url) =
      ((scorePass qs beta (rrfAccumulate k lists)).map Prod.fst).map some := by
  rw [List.map_map, List.map_map]
  refine List.map_congr_left ?_
  intro p hp
  have hkey := scorePass_pair_key k qs beta lists p hp
  simp only [Function.comp_apply]
  exact (keyOf_eq_some.mp hkey).1

/-- The position fields a 1..N renumbering pass assigns. -/
theorem enum_positions (l : List Acc) :
    ((l.enum.map (fun p => ({ p.2.bestItem with position := some (p.1 + 1) }
        : SearchItem))).map SearchItem.position) =
      (List.range l.length).map (fun i => some (i + 1)) := by
  rw [List.map_map]
  have hc : (SearchItem.position ∘ fun p : ℕ × Acc =>
      ({ p.2.bestItem with position := some (p.1 + 1) } : SearchItem)) =
      (fun i : ℕ => some (i + 1)) ∘ Prod.fst := rfl
  rw [hc, ← List.map_map, List.enum_eq_enumFrom, List.enumFrom_map_fst,
    ← List.range_eq_range']

/-- Claim C10 (amended): an item whose url is falsy — absent, undefined, or
the empty string (the source tests plain truthiness, so an empty-string url
is also skipped) — contributes nothing and never appears in the output; the
fused output's cardinality equals the number of distinct non-empty URLs,
which can be smaller than the number of input items. -/
theorem C10_falsy_urls_ignored (lists : List (Option (List SearchItem)))
    (qs : List String) (k beta : ℚ) :
    (rrfMerge lists qs k beta).length = (allUrls lists).toFinset.card ∧
      ∀ out ∈ rrfMerge lists qs k beta, ∃ u, u ≠ "" ∧ out.url = some u := by
  refine ⟨rrfMerge_length lists qs k beta, ?_⟩
  intro out hout
  have hmem : out.url ∈ (rrfMerge lists qs k beta).map SearchItem.url :=
    List.mem_map_of_mem _ hout
  rw [rrfMerge_map_url] at hmem
  obtain ⟨a, ha, haurl⟩ := List.mem_map.mp hmem
  have ha2 : a ∈ (scorePass qs beta (rrfAccumulate k lists)).map Prod.snd :=
    (rrfRanked_perm lists qs k beta).subset ha
  obtain ⟨p, hp, rfl⟩ := List.mem_map.mp ha2
  have hkey := scorePass_pair_key k qs beta lists p hp
  obtain ⟨hurl, hne⟩ := keyOf_eq_some.mp hkey
  exact ⟨p.1, hne, haurl ▸ hurl⟩

/-- Counterexample to claim C10 as stated: an item with the defined but
empty url is also ignored (JS falsiness), so the output cardinality (0) is
smaller than the number of distinct defined URLs (1). -/
theorem C10_falsy_urls_ignored_counterexample :
    rrfMerge [some [⟨some "", none, "t", "d"⟩]] [] 60 (0.1 : ℚ) = [] ∧
      (definedUrls [some [⟨some "", none, "t", "d"⟩]]).toFinset.card = 1 := by
  constructor
  · decide
  · decide

/-- Carrying a (non-empty) url is exactly JS-truthiness of the url field. -/
theorem truthy_iff_exists (o : Option String) :
    truthy o = true ↔ ∃ u, u ≠ "" ∧ o = some u := by
  cases o with
  | none => simp [truthy]
  | some s =>
    constructor
    · intro h
      refine ⟨s, ?_, rfl⟩
      simpa [truthy] using h
    · rintro ⟨u, hne, he⟩
      obtain rfl := Option.some.inj he
      simpa [truthy] using hne

/-- Under the carries-a-url hypothesis the truthy urls are exactly the
defined urls. -/
theorem allUrls_eq_definedUrls (lists : List (Option (List SearchItem)))
    (hcarry : ∀ ol ∈ lists, ∀ item ∈ ol.getD ([] : List SearchItem),
      truthy item.url = true) :
    allUrls lists = definedUrls lists := by
  unfold allUrls definedUrls
  congr 1
  refine List.map_congr_left ?_
  intro ol hol
  refine List.filterMap_congr ?_
  intro item hitem
  obtain ⟨u, hne, hurl⟩ := (truthy_iff_exists _).mp (hcarry ol hol item hitem)
  rw [hurl, keyOf_eq_some.mpr ⟨hurl, hne⟩]

/-- Claim C1: when every input item carries a (non-empty) url, the fused
output has pairwise distinct URLs, its cardinality is the number of
distinct URLs across all input lists, no input URL is dropped, and the
output positions form the dense sequence 1..N in output order. -/
theorem C1_rrfMerge_fusion_invariants (lists : List (Option (List SearchItem)))
    (qs : List String) (k beta : ℚ)
    (hcarry : ∀ ol ∈ lists, ∀ item ∈ ol.getD ([] : List SearchItem),
      truthy item.url = true) :
    ((rrfMerge lists qs k beta).map SearchItem.url).Nodup ∧
      (rrfMerge lists qs k beta).length = (definedUrls lists).toFinset.card ∧
      (∀ ol ∈ lists, ∀ item ∈ ol.getD ([] : List SearchItem),
        ∃ out ∈ rrfMerge lists qs k beta, out.url = item.url) ∧
      (rrfMerge lists qs k beta).map SearchItem.position =
        (List.range (rrfMerge lists qs k beta).length).map (fun i => some (i + 1)) := by
  refine ⟨?_, ?_, ?_, ?_⟩
  · rw [rrfMerge_map_url]
    have hperm := (rrfRanked_perm lists qs k beta).map (fun a : Acc => a.bestItem.url)
    rw [List.Perm.nodup_iff hperm, accs_map_url]
    refine List.Nodup.map (Option.some_injective String) ?_
    rw [keys_scorePass]
    exact rrfAccumulate_nodup k lists
  · rw [rrfMerge_length, allUrls_eq_definedUrls lists hcarry]
  · intro ol hol item hitem
    obtain ⟨u, hne, hurl⟩ := (truthy_iff_exists _).mp (hcarry ol hol item hitem)
    have hkey : keyOf item = some u := keyOf_eq_some.mpr ⟨hurl, hne⟩
    have hmem : u ∈ allUrls lists := by
      unfold allUrls
      exact List.mem_flatten.mpr ⟨(ol.getD []).filterMap keyOf,
        List.mem_map_of_mem _ hol, List.mem_filterMap.mpr ⟨item, hitem, hkey⟩⟩
    have hsome : (mapGet (rrfAccumulate k lists) u).isSome = true :=
      (rrfAccumulate_isSome k lists u).mpr hmem
    obtain ⟨a0, ha0⟩ := Option.isSome_iff_exists.mp hsome
    have hsp : mapGet (scorePass qs beta (rrfAccumulate k lists)) u =
        some (withSim qs beta a0) := by
      rw [mapGet_scorePass, ha0]
      rfl
    have hpair := mapGet_mem _ u _ hsp
    have haccs : withSim qs beta a0 ∈
        (scorePass qs beta (rrfAccumulate k lists)).map Prod.snd :=
      List.mem_map.mpr ⟨_, hpair, rfl⟩
    have hsorted : withSim qs beta a0 ∈ rrfRanked lists qs k beta :=
      ((rrfRanked_perm lists qs k beta).mem_iff).mpr haccs
    obtain ⟨i, hi, hEq⟩ := List.getElem_of_mem hsorted
    have hkey0 : keyOf a0.bestItem = some u :=
      rrfAccumulate_bestItem k lists u (fun it => keyOf it = some u)
        (fun _ _ _ _ h => h) a0 ha0
    have hilt2 : i < ((rrfRanked lists qs k beta).enum.map
        (fun p => ({ p.2.bestItem with position := some (p.1 + 1) } : SearchItem))).length := by
      rw [List.length_map, List.enum_length]
      exact hi
    have hurl_out : (((rrfRanked lists qs k beta).enum.map
        (fun p => ({ p.2.bestItem with position := some (p.1 + 1) }
          : SearchItem)))[i]).url
        = ((rrfRanked lists qs k beta)[i]).bestItem.url := by
      rw [List.getElem_map, List.getElem_enum]
    refine ⟨((rrfRanked lists qs k beta).enum.map
        (fun p => ({ p.2.bestItem with position := some (p.1 + 1) }
          : SearchItem)))[i], List.getElem_mem hilt2, ?_⟩
    rw [hurl_out, hEq, hurl]
    exact (keyOf_eq_some.mp hkey0).1
  · have hrw : rrfMerge lists qs k beta =
        (rrfRanked lists qs k beta).enum.map
          (fun p => ({ p.2.bestItem with position := some (p.1 + 1) } : SearchItem)) :=
      rfl
    rw [hrw, enum_positions]
    rw [List.length_map, List.enum_length]

/-- Witness for C1: two variant lists over three distinct urls, one shared:
the fused list has 3 distinct urls and cardinality 3. -/
theorem C1_rrfMerge_fusion_invariants_witness :
    ((rrfMerge
        [some [⟨some "https://a.example", none, "ta", "da"⟩,
               ⟨some "https://b.example", none, "tb", "db"⟩],
         some [⟨some "https://a.example", none, "ta", "da"⟩,
               ⟨some "https://c.example", none, "tc", "dc"⟩]]
        [] 60 (0.1 : ℚ)).map SearchItem.url).Nodup ∧
      (rrfMerge
        [some [⟨some "https://a.example", none, "ta", "da"⟩,
               ⟨some "https://b.example", none, "tb", "db"⟩],
         some [⟨some "https://a.example", none, "ta", "da"⟩,
               ⟨some "https://c.example", none, "tc", "dc"⟩]]
        [] 60 (0.1 : ℚ)).length =
        (definedUrls
          [some [⟨some "https://a.example", none, "ta", "da"⟩,
                 ⟨some "https://b.example", none, "tb", "db"⟩],
           some [⟨some "https://a.example", none, "ta", "da"⟩,
                 ⟨some "https://c.example", none, "tc", "dc"⟩]]).toFinset.card := by
  have h := C1_rrfMerge_fusion_invariants
    [some [⟨some "https://a.example", none, "ta", "da"⟩,
           ⟨some "https://b.example", none, "tb", "db"⟩],
     some [⟨some "https://a.example", none, "ta", "da"⟩,
           ⟨some "https://c.example", none, "tc", "dc"⟩]]
    [] 60 (0.1 : ℚ) (by decide)
  exact ⟨h.1, h.2.1⟩

/-! Ordering of the fused output (claim C2). -/

theorem mem_allUrls_of_occRanks_ne_nil (lists : List (Option (List SearchItem)))
    (u : String) (h : occRanks lists u ≠ []) : u ∈ allUrls lists := by
  unfold occRanks at h
  obtain ⟨l, hl, hne⟩ : ∃ l ∈ lists.map (fun ol => occRanksOfList (ol.getD []) u),
      l ≠ [] := by
    by_contra hc
    push_neg at hc
    exact h (List.flatten_eq_nil_iff.mpr hc)
  obtain ⟨ol, hol, rfl⟩ := List.mem_map.mp hl
  unfold occRanksOfList at hne
  obtain ⟨p, hp, hfp⟩ : ∃ p ∈ (ol.getD ([] : List SearchItem)).enum,
      (if keyOf p.2 = some u then some (rankOf p.2 p.1) else none) ≠ none := by
    by_contra hc
    push_neg at hc
    exact hne (List.filterMap_eq_nil_iff.mpr hc)
  have hkey : keyOf p.2 = some u := by
    by_contra hk
    exact hfp (by simp [hk])
  have hmem : p.2 ∈ ol.getD ([] : List SearchItem) := by
    have : p.2 ∈ (ol.getD ([] : List SearchItem)).enum.map Prod.snd :=
      List.mem_map_of_mem _ hp
    rwa [List.enum_eq_enumFrom, List.enumFrom_map_snd] at this
  unfold allUrls
  exact List.mem_flatten.mpr ⟨(ol.getD []).filterMap keyOf,
    List.mem_map_of_mem _ hol, List.mem_filterMap.mpr ⟨p.2, hmem, hkey⟩⟩

/-- The fused entry a url u with at least one occurrence gets: its base is
the RRF base score, its representative item is one of u's occurrences, and
its score-boosted accumulator appears among the sorted values. -/
theorem rrf_entry_spec (lists : List (Option (List SearchItem))) (qs : List String)
    (k beta : ℚ) (u : String) (hmem : u ∈ allUrls lists) :
    ∃ a0 : Acc, mapGet (rrfAccumulate k lists) u = some a0 ∧
      mapGet (scorePass qs beta (rrfAccumulate k lists)) u = some (withSim qs beta a0) ∧
      withSim qs beta a0 ∈ rrfRanked lists qs k beta ∧
      a0.base = baseSpec k lists u ∧
      a0.bestItem ∈ occItems lists u ∧
      keyOf a0.bestItem = some u := by
  obtain ⟨a0, ha0⟩ := Option.isSome_iff_exists.mp
    ((rrfAccumulate_isSome k lists u).mpr hmem)
  have hsp : mapGet (scorePass qs beta (rrfAccumulate k lists)) u =
      some (withSim qs beta a0) := by
    rw [mapGet_scorePass, ha0]
    rfl
  refine ⟨a0, ha0, hsp, ?_, ?_, ?_, ?_⟩
  · exact (rrfRanked_perm lists qs k beta).mem_iff.mpr
      (List.mem_map.mpr ⟨(u, withSim qs beta a0), mapGet_mem _ _ _ hsp, rfl⟩)
  · have hb := rrfAccumulate_base k lists u
    rw [ha0] at hb
    simpa [baseOf] using hb
  · refine rrfAccumulate_bestItem k lists u (fun it => it ∈ occItems lists u)
      ?_ a0 ha0
    intro ol hol item hitem hkey
    unfold occItems
    refine List.mem_flatten.mpr ⟨occItemsOfList (ol.getD []) u,
      List.mem_map_of_mem _ hol, ?_⟩
    unfold occItemsOfList
    exact List.mem_filter.mpr ⟨hitem, by simp [hkey]⟩
  · exact rrfAccumulate_bestItem k lists u (fun it => keyOf it = some u)
      (fun _ _ _ _ h => h) a0 ha0

/-- In the sorted values, any entry whose representative carries url u is
the unique scored accumulator of u. -/
theorem rrf_ranked_entry_unique (lists : List (Option (List SearchItem)))
    (qs : List String) (k beta : ℚ) (u : String) (a0 : Acc)
    (ha0 : mapGet (rrfAccumulate k lists) u = some a0) :
    ∀ (i : ℕ) (hi : i < (rrfRanked lists qs k beta).length),
      ((rrfRanked lists qs k beta)[i]).bestItem.url = some u →
      (rrfRanked lists qs k beta)[i] = withSim qs beta a0 := by
  intro i hi hurl
  have hmem : (rrfRanked lists qs k beta)[i] ∈ rrfRanked lists qs k beta :=
    List.getElem_mem hi
  have haccs := (rrfRanked_perm lists qs k beta).subset hmem
  obtain ⟨p, hp, hpa⟩ := List.mem_map.mp haccs
  obtain ⟨u1, a1⟩ := p
  have hkey := scorePass_pair_key k qs beta lists (u1, a1) hp
  have h2 : ((rrfRanked lists qs k beta)[i]).bestItem.url = some u1 := by
    rw [← hpa]
    exact (keyOf_eq_some.mp hkey).1
  have hu1 : u1 = u := Option.some.inj (h2.symm.trans hurl)
  subst hu1
  have hnd : ((scorePass qs beta (rrfAccumulate k lists)).map Prod.fst).Nodup := by
    rw [keys_scorePass]
    exact rrfAccumulate_nodup k lists
  have hget : mapGet (scorePass qs beta (rrfAccumulate k lists)) u1 = some a1 :=
    mapGet_eq_of_mem_nodup _ u1 a1 hnd hp
  have hga : mapGet (scorePass qs beta (rrfAccumulate k lists)) u1 =
      some (withSim qs beta a0) := by
    rw [mapGet_scorePass, ha0]
    rfl
  rw [← hpa]
  exact Option.some.inj (hget.symm.trans hga)

theorem rrfMerge_length_ranked (lists : List (Option (List SearchItem)))
    (qs : List String) (k beta : ℚ) :
    (rrfMerge lists qs k beta).length = (rrfRanked lists qs k beta).length := by
  unfold rrfMerge
  rw [List.length_map, List.enum_length]

theorem rrfMerge_getElem_url (lists : List (Option (List SearchItem)))
    (qs : List String) (k beta : ℚ) (i : ℕ)
    (hi : i < (rrfMerge lists qs k beta).length)
    (hi2 : i < (rrfRanked lists qs k beta).length) :
    ((rrfMerge lists qs k beta)[i]).url =
      ((rrfRanked lists qs k beta)[i]).bestItem.url := by
  have h2 : (rrfMerge lists qs k beta)[i] =
      ({ ((rrfRanked lists qs k beta)[i]).bestItem with position := some (i + 1) }
        : SearchItem) := by
    have h : (rrfMerge lists qs k beta)[i]? =
        ((rrfRanked lists qs k beta)[i]?).map
          (fun a => ({ a.bestItem with position := some (i + 1) } : SearchItem)) := by
      unfold rrfMerge
      rw [List.getElem?_map, List.getElem?_enum]
      cases hc : (rrfRanked lists qs k beta)[i]? <;> simp [hc]
    rw [List.getElem?_eq_getElem hi, List.getElem?_eq_getElem hi2] at h
    simpa using h
  rw [h2]

/-- Claim C2: for every k > 0 (and any beta), if URL A occurs exactly twice,
both occurrences at rank 1, and URL B occurs exactly once at rank 1, and
every occurrence of A or B has the same cumulative snippet similarity s
against the expanded queries, then A is ordered strictly before B in the
fused output (both are present). -/
theorem C2_rrf_rank1_ordering (lists : List (Option (List SearchItem)))
    (qs : List String) (k beta s : ℚ) (A B : String)
    (hk : 0 < k)
    (hA : occRanks lists A = [1, 1])
    (hB : occRanks lists B = [1])
    (hsA : ∀ item ∈ occItems lists A, simOfItem qs item = s)
    (hsB : ∀ item ∈ occItems lists B, simOfItem qs item = s) :
    (rrfMerge lists qs k beta).findIdx (fun it => it.url = some A) <
        (rrfMerge lists qs k beta).findIdx (fun it => it.url = some B) ∧
      (rrfMerge lists qs k beta).findIdx (fun it => it.url = some B) <
        (rrfMerge lists qs k beta).length := by
  have hmemA : A ∈ allUrls lists :=
    mem_allUrls_of_occRanks_ne_nil lists A (by rw [hA]; simp)
  have hmemB : B ∈ allUrls lists :=
    mem_allUrls_of_occRanks_ne_nil lists B (by rw [hB]; simp)
  obtain ⟨aA, haA, _hspA, hrankedA, hbaseA, hbestA, hkeyA⟩ :=
    rrf_entry_spec lists qs k beta A hmemA
  obtain ⟨aB, haB, _hspB, hrankedB, hbaseB, hbestB, hkeyB⟩ :=
    rrf_entry_spec lists qs k beta B hmemB
  have hsimA := hsA _ hbestA
  have hsimB := hsB _ hbestB
  have hscoreA : (withSim qs beta aA).score = (1 / (k + 1) + 1 / (k + 1)) + beta * s := by
    show aA.base + beta * simOfItem qs aA.bestItem = _
    rw [hbaseA, hsimA]
    unfold baseSpec
    rw [hA]
    norm_num
  have hscoreB : (withSim qs beta aB).score = 1 / (k + 1) + beta * s := by
    show aB.base + beta * simOfItem qs aB.bestItem = _
    rw [hbaseB, hsimB]
    unfold baseSpec
    rw [hB]
    norm_num
  have hk1 : (0 : ℚ) < k + 1 := by linarith
  have hlt : (withSim qs beta aB).score < (withSim qs beta aA).score := by
    rw [hscoreA, hscoreB]
    have hpos := one_div_pos.mpr hk1
    linarith
  have hsorted : List.Sorted rrfRel (rrfRanked lists qs k beta) :=
    List.sorted_insertionSort rrfRel _
  have horder : ∀ (i j : ℕ) (hi : i < (rrfRanked lists qs k beta).length)
      (hj : j < (rrfRanked lists qs k beta).length),
      (rrfRanked lists qs k beta)[i] = withSim qs beta aA →
      (rrfRanked lists qs k beta)[j] = withSim qs beta aB → i < j := by
    intro i j hi hj hia hjb
    have hne : i ≠ j := by
      intro h
      subst h
      rw [hia] at hjb
      have hse := congrArg Acc.score hjb
      rw [hjb] at hlt
      exact absurd rfl (ne_of_gt hlt)
    rcases Nat.lt_or_ge i j with h | h
    · exact h
    · have hji : j < i := lt_of_le_of_ne h (Ne.symm hne)
      have hrel := (List.pairwise_iff_getElem.mp hsorted) j i hj hi hji
      rw [hia, hjb] at hrel
      exact absurd hrel (not_le.mpr hlt)
  have hlen := rrfMerge_length_ranked lists qs k beta
  obtain ⟨iA, hiA, hEqA⟩ := List.getElem_of_mem hrankedA
  obtain ⟨iB, hiB, hEqB⟩ := List.getElem_of_mem hrankedB
  have hiA2 : iA < (rrfMerge lists qs k beta).length := by rw [hlen]; exact hiA
  have hiB2 : iB < (rrfMerge lists qs k beta).length := by rw [hlen]; exact hiB
  have hurlA : ((rrfMerge lists qs k beta)[iA]).url = some A := by
    rw [rrfMerge_getElem_url lists qs k beta iA hiA2 hiA, hEqA]
    exact (keyOf_eq_some.mp hkeyA).1
  have hurlB : ((rrfMerge lists qs k beta)[iB]).url = some B := by
    rw [rrfMerge_getElem_url lists qs k beta iB hiB2 hiB, hEqB]
    exact (keyOf_eq_some.mp hkeyB).1
  have hexA : ∃ x ∈ rrfMerge lists qs k beta,
      (fun it : SearchItem => decide (it.url = some A)) x = true :=
    ⟨_, List.getElem_mem hiA2, by simp [hurlA]⟩
  have hexB : ∃ x ∈ rrfMerge lists qs k beta,
      (fun it : SearchItem => decide (it.url = some B)) x = true :=
    ⟨_, List.getElem_mem hiB2, by simp [hurlB]⟩
  have hfA := List.findIdx_lt_length_of_exists hexA
  have hfB := List.findIdx_lt_length_of_exists hexB
  have hpfA : ((rrfMerge lists qs k beta)[(rrfMerge lists qs k beta).findIdx
      (fun it : SearchItem => decide (it.url = some A))]).url = some A := by
    have h := List.findIdx_getElem (w := hfA)
    simpa using h
  have hpfB : ((rrfMerge lists qs k beta)[(rrfMerge lists qs k beta).findIdx
      (fun it : SearchItem => decide (it.url = some B))]).url = some B := by
    have h := List.findIdx_getElem (w := hfB)
    simpa using h
  have hfA3 : (rrfMerge lists qs k beta).findIdx
      (fun it : SearchItem => decide (it.url = some A)) <
      (rrfRanked lists qs k beta).length := by rw [← hlen]; exact hfA
  have hfB3 : (rrfMerge lists qs k beta).findIdx
      (fun it : SearchItem => decide (it.url = some B)) <
      (rrfRanked lists qs k beta).length := by rw [← hlen]; exact hfB
  have hra := rrf_ranked_entry_unique lists qs k beta A aA haA _ hfA3
    (by rw [← rrfMerge_getElem_url lists qs k beta _ hfA hfA3]; exact hpfA)
  have hrb := rrf_ranked_entry_unique lists qs k beta B aB haB _ hfB3
    (by rw [← rrfMerge_getElem_url lists qs k beta _ hfB hfB3]; exact hpfB)
  exact ⟨horder _ _ hfA3 hfB3 hra hrb, hfB⟩

/-- Witness for C2: A at rank 1 in both variant lists, B at rank 1 (by its
position field) in one list, all similarities 0; the fused output orders A
strictly before B. -/
theorem C2_rrf_rank1_ordering_witness :
    (rrfMerge
        [some [⟨some "https://a.example", none, "", ""⟩],
         some [⟨some "https://a.example", none, "", ""⟩,
               ⟨some "https://b.example", some 1, "", ""⟩]]
        [] 60 (0.1 : ℚ)).findIdx
      (fun it => it.url = some "https://a.example") <
        (rrfMerge
          [some [⟨some "https://a.example", none, "", ""⟩],
           some [⟨some "https://a.example", none, "", ""⟩,
                 ⟨some "https://b.example", some 1, "", ""⟩]]
          [] 60 (0.1 : ℚ)).findIdx
        (fun it => it.url = some "https://b.example") ∧
      (rrfMerge
          [some [⟨some "https://a.example", none, "", ""⟩],
           some [⟨some "https://a.example", none, "", ""⟩,
                 ⟨some "https://b.example", some 1, "", ""⟩]]
          [] 60 (0.1 : ℚ)).findIdx
        (fun it => it.url = some "https://b.example") <
        (rrfMerge
          [some [⟨some "https://a.example", none, "", ""⟩],
           some [⟨some "https://a.example", none, "", ""⟩,
                 ⟨some "https://b.example", some 1, "", ""⟩]]
          [] 60 (0.1 : ℚ)).length :=
  C2_rrf_rank1_ordering
    [some [⟨some "https://a.example", none, "", ""⟩],
     some [⟨some "https://a.example", none, "", ""⟩,
           ⟨some "https://b.example", some 1, "", ""⟩]]
    [] 60 (0.1 : ℚ) 0 "https://a.example" "https://b.example"
    (by norm_num) (by decide) (by decide) (by decide) (by decide)

end V2Search
